import Mathlib

/-!
Verification of the ui-builder-cookbook orchestration pipeline.

The development shallowly embeds the TypeScript modules of the repository:

* `src/lib/error-detection.ts` — `detectCodeErrors`, `parseTypeScriptErrors`
  (including a faithful backtracking matcher for the TypeScript-error regex);
* `src/lib/openai.ts` — `mergeFiles` (JavaScript `Map`-based merge);
* `src/lib/sandbox-helpers.ts` — `applyTransformations` and its two rewrites;
* `src/lib/types.ts` — the `ProgressTracker` state machine;
* `src/lib/actions/generate-app.ts` — `generateApp`, with the external
  collaborators (LLM, fixer, sandbox) supplied by an oracle environment;
* `updateSandboxFiles` (sandbox update-in-place mode).

JavaScript strings are modelled as Lean `String`s; the string primitives the
source uses (`includes`, `endsWith`, `split('\n')`, `trim`, `toLowerCase`,
first-occurrence `replace`) are re-implemented structurally over `List Char`
so that all definitions reduce in the kernel.
-/

namespace UIB

/-! ## JavaScript string primitives -/

/-- `pat.isPrefixOf s` at some position of `s`: JavaScript `s.includes(pat)`. -/
def listHas (pat : List Char) : List Char → Bool
  | [] => pat.isEmpty
  | s@(_ :: t) => pat.isPrefixOf s || listHas pat t

/-- JavaScript `s.includes(pat)`. -/
def sIncludes (s pat : String) : Bool := listHas pat.data s.data

/-- JavaScript `s.endsWith(pat)`. -/
def sEndsWith (s pat : String) : Bool := pat.data.isSuffixOf s.data

/-- Replace the first occurrence of `pat` (JavaScript `String.prototype.replace`
with a string pattern replaces only the first occurrence). -/
def replaceFirstAux (pat repl : List Char) : List Char → List Char
  | [] => if pat.isEmpty then repl else []
  | s@(c :: t) =>
    if pat.isPrefixOf s then repl ++ s.drop pat.length
    else c :: replaceFirstAux pat repl t

/-- JavaScript `s.replace(pat, repl)` for a plain-string `pat`. -/
def sReplaceFirst (s pat repl : String) : String :=
  String.mk (replaceFirstAux pat.data repl.data s.data)

/-- JavaScript `\s` (whitespace class): ASCII blanks plus the Unicode space
code points the ECMAScript spec lists. -/
def jsWs (c : Char) : Bool :=
  c = ' ' || c = '\t' || c = '\n' || c = '\r' || c.toNat = 11 || c.toNat = 12 ||
  c.toNat = 0xa0 || c.toNat = 0x1680 ||
  (decide (0x2000 ≤ c.toNat) && decide (c.toNat ≤ 0x200a)) ||
  c.toNat = 0x2028 || c.toNat = 0x2029 || c.toNat = 0x202f ||
  c.toNat = 0x205f || c.toNat = 0x3000 || c.toNat = 0xfeff

/-- JavaScript regex `.`: any character except a line terminator. -/
def dotChar (c : Char) : Bool :=
  !(c = '\n' || c = '\r' || c.toNat = 0x2028 || c.toNat = 0x2029)

/-- JavaScript `s.split('\n')`. -/
def splitNlAux : List Char → List Char → List String
  | [], acc => [String.mk acc.reverse]
  | c :: t, acc =>
    if c = '\n' then String.mk acc.reverse :: splitNlAux t []
    else splitNlAux t (c :: acc)

/-- JavaScript `s.split('\n')`. -/
def splitLines (s : String) : List String := splitNlAux s.data []

/-- JavaScript `s.trim()`: strip whitespace and line terminators at both ends. -/
def sTrim (s : String) : String :=
  String.mk (((s.data.dropWhile jsWs).reverse.dropWhile jsWs).reverse)

/-- JavaScript `s.toLowerCase()` restricted to the ASCII range the source's
marker strings use. -/
def sToLower (s : String) : String := String.mk (s.data.map Char.toLower)

/-- Decimal value of a digit run, as JavaScript `parseInt` reads it. -/
def digitsVal (ds : List Char) : Nat :=
  ds.foldl (fun n c => n * 10 + (c.toNat - '0'.toNat)) 0

/-! ## `src/lib/error-detection.ts` -/

/-- The `type` field of a `BuildError` (`'typescript' | 'build' | 'runtime'`). -/
inductive ErrType where
  | typescript
  | build
  | runtime
deriving DecidableEq, Repr

/-- `BuildError` of `src/lib/error-detection.ts`. -/
structure BuildError where
  type : ErrType
  message : String
  file : Option String := none
  line : Option Nat := none
  column : Option Nat := none
deriving DecidableEq, Repr

/-- `ErrorDetectionResult` of `src/lib/error-detection.ts`. -/
structure ErrorDetectionResult where
  hasErrors : Bool
  errors : List BuildError
  isInfrastructureOnly : Bool
deriving DecidableEq, Repr

/-- The whole-output code-error markers checked by `detectCodeErrors`. -/
def hasCodeMarkers (output : String) : Bool :=
  sIncludes output "SyntaxError" ||
  sIncludes output "Unexpected token" ||
  sIncludes output "Parse error" ||
  sIncludes output "Unterminated string" ||
  (sIncludes output "Cannot resolve module" || sIncludes output "Module not found") ||
  sIncludes output "Cannot resolve import"

/-- The whole-output infrastructure markers checked by `detectCodeErrors`. -/
def isInfrastructureMarker (output : String) : Bool :=
  sIncludes output "EACCES: permission denied" ||
  sIncludes output "failed to load config from /app/vite.config.ts" ||
  sIncludes output "error when starting dev server" ||
  sIncludes output "/app/node_modules/.vite-temp/"

/-- Line-level code-error test of `parseErrorsFromOutput`. -/
def lineHasCodeError (line : String) : Bool :=
  sIncludes line "SyntaxError" ||
  sIncludes line "Unexpected token" ||
  sIncludes line "Parse error" ||
  sIncludes line "Unterminated string" ||
  sIncludes line "Cannot resolve module" ||
  sIncludes line "Module not found" ||
  sIncludes line "Cannot resolve import"

/-- Line-level infrastructure test of `parseErrorsFromOutput` (note: it uses
the shorter marker `"failed to load config"`). -/
def lineIsInfrastructure (line : String) : Bool :=
  sIncludes line "EACCES: permission denied" ||
  sIncludes line "failed to load config" ||
  sIncludes line "error when starting dev server" ||
  sIncludes line "/app/node_modules/.vite-temp/"

/-- `parseErrorsFromOutput` of `src/lib/error-detection.ts`: each line that
holds a code marker and no line-level infrastructure marker becomes a
`build` error with the trimmed line as message. -/
def parseErrorsFromOutput (output : String) : List BuildError :=
  ((splitLines output).filter
      (fun line => lineHasCodeError line && !(lineIsInfrastructure line))).map
    (fun line => { type := ErrType.build, message := sTrim line })

/-- Tail of the TypeScript-error regex `(.+)\((\d+),(\d+)\): error TS\d+: (.+)`
after the first group: parses `(line,column): error TS####: message` with the
greedy/backtracking semantics of the JavaScript engine (each `\d+` is maximal
because the following literal is not a digit; the final `(.+)` is the maximal
nonempty run of non-terminator characters). Returns `(line, column, message)`. -/
def tsTail (cs : List Char) : Option (Nat × Nat × List Char) :=
  match cs with
  | '(' :: r0 =>
    let d1 := r0.takeWhile Char.isDigit
    if d1.isEmpty then none else
    match r0.dropWhile Char.isDigit with
    | ',' :: r2 =>
      let d2 := r2.takeWhile Char.isDigit
      if d2.isEmpty then none else
      let r3 := r2.dropWhile Char.isDigit
      if ("): error TS".data).isPrefixOf r3 then
        let r4 := r3.drop 11
        let d3 := r4.takeWhile Char.isDigit
        if d3.isEmpty then none else
        match r4.dropWhile Char.isDigit with
        | ':' :: ' ' :: r6 =>
          let msg := r6.takeWhile dotChar
          if msg.isEmpty then none
          else some (digitsVal d1, digitsVal d2, msg)
        | _ => none
      else none
    | _ => none
  | _ => none

/-- Greedy first group of the TypeScript-error regex at a fixed start
position: try group-1 lengths in descending order (`(.+)` is greedy), each
group-1 candidate being a nonempty run of non-terminator characters whose
remainder parses by `tsTail`. `len` is the candidate length. -/
def tsGroup1 (cs : List Char) : Nat → Option (List Char × Nat × Nat × List Char)
  | 0 => none
  | len + 1 =>
    let g1 := cs.take (len + 1)
    (if g1.all dotChar then
      match tsTail (cs.drop (len + 1)) with
      | some (l, c, msg) => some (g1, l, c, msg)
      | none => none
    else none).orElse (fun _ => tsGroup1 cs len)

/-- Leftmost match of the TypeScript-error regex: scan start positions left to
right, at each trying group-1 lengths greedily. Returns the captured
`(file, line, column, message)`. -/
def tsScan : List Char → Option (List Char × Nat × Nat × List Char)
  | [] => none
  | s@(_ :: t) =>
    match tsGroup1 s s.length with
    | some m => some m
    | none => tsScan t

/-- One line of `parseTypeScriptErrors`: the regex match (if any) turned into
a `BuildError`, unless the lowercased message holds one of the filtered
substrings (`deprecated`, `unused`, `implicit any`). -/
def tsLineError (line : String) : Option BuildError :=
  match tsScan line.data with
  | some (file, l, c, msg) =>
    let message := String.mk msg
    let lowerMessage := sToLower message
    if !(sIncludes lowerMessage "deprecated") &&
       !(sIncludes lowerMessage "unused") &&
       !(sIncludes lowerMessage "implicit any") then
      some { type := ErrType.typescript, message := sTrim message,
             file := some (sReplaceFirst (String.mk file) "/app/" ""),
             line := some l, column := some c }
    else none
  | none => none

/-- `parseTypeScriptErrors` of `src/lib/error-detection.ts`. -/
def parseTypeScriptErrors (stderr : String) : List BuildError :=
  (splitLines stderr).filterMap tsLineError

/-- `detectCodeErrors` of `src/lib/error-detection.ts`. -/
def detectCodeErrors (output : String) : ErrorDetectionResult :=
  let hasCodeErrors := hasCodeMarkers output
  let isInfrastructureError := isInfrastructureMarker output
  if hasCodeErrors && !isInfrastructureError then
    { hasErrors := true, errors := parseErrorsFromOutput output, isInfrastructureOnly := false }
  else if isInfrastructureError && !hasCodeErrors then
    { hasErrors := false, errors := [], isInfrastructureOnly := true }
  else
    { hasErrors := false, errors := [], isInfrastructureOnly := false }

/-! ## `src/lib/openai.ts` — `mergeFiles`

`mergeFiles` builds a JavaScript `Map` keyed by path from the existing files,
applies every update with `Map.set` (which overwrites the value in place,
keeping the original insertion position, or appends a new entry), and returns
the values in insertion order. The `Map` is modelled as an insertion-ordered
association list. -/

/-- A generated file (`{ path, contents }`). -/
structure GeneratedFile where
  path : String
  contents : String
deriving DecidableEq, Repr

/-- JavaScript `Map.prototype.set`: overwrite the entry in place when the key
is present (a `Map` holds at most one entry per key), append a new entry
otherwise. -/
def mapSet : List (String × GeneratedFile) → String → GeneratedFile →
    List (String × GeneratedFile)
  | [], k, v => [(k, v)]
  | (k', v') :: t, k, v =>
    if k' = k then (k, v) :: t else (k', v') :: mapSet t k v

/-- Insert every file into the map keyed by its path (`map.set(f.path, f)`),
in order. -/
def mapInsertAll (files : List GeneratedFile) (m : List (String × GeneratedFile)) :
    List (String × GeneratedFile) :=
  files.foldl (fun m f => mapSet m f.path f) m

/-- `mergeFiles` of `src/lib/openai.ts`. -/
def mergeFiles (existingFiles updatedFiles : List GeneratedFile) : List GeneratedFile :=
  (mapInsertAll updatedFiles (mapInsertAll existingFiles [])).map Prod.snd

/-- The paths of a file list. -/
def paths (files : List GeneratedFile) : List String := files.map (fun f => f.path)

/-- The keys of the modelled map, in insertion order. -/
def mapKeys (m : List (String × GeneratedFile)) : List String := m.map Prod.fst

/-- First value stored under a key (JavaScript `Map.prototype.get` up to the
map's no-duplicate-keys invariant). -/
def lookupM : List (String × GeneratedFile) → String → Option GeneratedFile
  | [], _ => none
  | (k', v) :: t, k => if k' = k then some v else lookupM t k

/-- First file with a given path (JavaScript `Array.prototype.find`). -/
def findByPath : List GeneratedFile → String → Option GeneratedFile
  | [], _ => none
  | f :: t, k => if f.path = k then some f else findByPath t k

/-! ## `src/lib/sandbox-helpers.ts` — transformations

`applyTransformations = reactDomRender ∘ tailwindSyntax`. Each rewrite walks
the file list and rewrites matching files independently, so both are list
maps. The `ReactDOM.render` rewrite uses the JavaScript regex
`/ReactDOM\.render\(\s*([\s\S]*?),\s*document\.getElementById\(['"](.*)['"]\)\s*\)/`
without the global flag: only the leftmost match is replaced. The matcher
below implements exactly that regex's backtracking order: start positions
left to right; `\s*` greedy (longest first); `([\s\S]*?)` lazy (shortest
first); `(.*)` greedy. -/

/-- Per-file `transformations.tailwindSyntax` of `src/lib/sandbox-helpers.ts`:
a `.css` file containing `@tailwind` is replaced wholesale. -/
def tailwindFile (file : GeneratedFile) : GeneratedFile :=
  if sEndsWith file.path ".css" && sIncludes file.contents "@tailwind" then
    { file with contents := "@import \"tailwindcss\";" }
  else file

/-- `transformations.tailwindSyntax` of `src/lib/sandbox-helpers.ts`. -/
def tailwindRewrite (files : List GeneratedFile) : List GeneratedFile :=
  files.map tailwindFile

/-- The regex character class `['"]`. -/
def quoteChar (c : Char) : Bool := c = '\'' || c = '"'

/-- After the second quote of the render regex: `\)\s*\)`. -/
def renderClose (r : List Char) : Option (List Char) :=
  match r with
  | ')' :: r2 =>
    match r2.dropWhile jsWs with
    | ')' :: r3 => some r3
    | _ => none
  | _ => none

/-- One candidate length for the greedy `(.*)` group: the candidate, then a
closing quote, then `renderClose`. -/
def renderG2try (cs3 : List Char) (len : Nat) : Option (String × List Char) :=
  let g2 := cs3.take len
  if g2.all dotChar then
    match cs3.drop len with
    | q2 :: r =>
      if quoteChar q2 then (renderClose r).map (fun rest => (String.mk g2, rest))
      else none
    | [] => none
  else none

/-- Greedy `(.*)` group: longest candidate first. -/
def renderG2 (cs3 : List Char) : Nat → Option (String × List Char)
  | 0 => renderG2try cs3 0
  | len + 1 => (renderG2try cs3 (len + 1)).orElse (fun _ => renderG2 cs3 len)

/-- After the `,` of the render regex: `\s*document\.getElementById\(['"]`
then the greedy `(.*)` group and the closer. -/
def renderAfterComma (cs : List Char) : Option (String × List Char) :=
  let cs1 := cs.dropWhile jsWs
  if ("document.getElementById(".data).isPrefixOf cs1 then
    match cs1.drop 24 with
    | q1 :: cs3 =>
      if quoteChar q1 then renderG2 cs3 ((cs3.takeWhile dotChar).length) else none
    | [] => none
  else none

/-- Lazy `([\s\S]*?)` group at a fixed whitespace split: candidate lengths
ascending from `k`, with `fuel` candidates left. -/
def renderG1 (csW : List Char) : Nat → Nat → Option (String × String × List Char)
  | _, 0 => none
  | k, fuel + 1 =>
    (match csW.drop k with
     | ',' :: cs4 =>
       (renderAfterComma cs4).map
         (fun (r : String × List Char) => (String.mk (csW.take k), r.1, r.2))
     | _ => none).orElse (fun _ => renderG1 csW (k + 1) fuel)

/-- Greedy `\s*` after the literal `ReactDOM.render(`: whitespace lengths
descending. -/
def renderWs (cs0 : List Char) : Nat → Option (String × String × List Char)
  | 0 => renderG1 cs0 0 (cs0.length + 1)
  | w + 1 =>
    (renderG1 (cs0.drop (w + 1)) 0 ((cs0.drop (w + 1)).length + 1)).orElse
      (fun _ => renderWs cs0 w)

/-- Leftmost match of the render regex: `(offset, group1, group2, rest)`. -/
def renderFind : List Char → Option (Nat × String × String × List Char)
  | [] => none
  | s@(_ :: t) =>
    match (if ("ReactDOM.render(".data).isPrefixOf s then
             renderWs (s.drop 16) ((s.drop 16).takeWhile jsWs).length
           else none) with
    | some (g1, g2, rest) => some (0, g1, g2, rest)
    | none => (renderFind t).map (fun r => (r.1 + 1, r.2))

/-- JavaScript `contents.replace(renderRegex, template)`: replace the
leftmost match (no global flag) with the template, substituting `$1`/`$2`. -/
def renderReplaceString (s : String) : String :=
  match renderFind s.data with
  | none => s
  | some (off, g1, g2, rest) =>
    String.mk (s.data.take off) ++ "ReactDOM.createRoot(document.getElementById('" ++ g2 ++
      "') as HTMLElement).render(" ++ g1 ++ ")" ++ String.mk rest

/-- Per-file `transformations.reactDomRender` of `src/lib/sandbox-helpers.ts`:
on a `.tsx`/`.jsx` file containing `ReactDOM.render(`, adjust the two import
spellings (first occurrence each) and apply the render-call rewrite. -/
def reactDomFile (file : GeneratedFile) : GeneratedFile :=
  if sEndsWith file.path ".tsx" || sEndsWith file.path ".jsx" then
    if sIncludes file.contents "ReactDOM.render(" then
      let c1 := sReplaceFirst file.contents "import ReactDOM from 'react-dom';"
        "import ReactDOM from 'react-dom/client';"
      let c2 := sReplaceFirst c1 "import ReactDOM from \"react-dom\";"
        "import ReactDOM from \"react-dom/client\";"
      { file with contents := renderReplaceString c2 }
    else file
  else file

/-- `transformations.reactDomRender` of `src/lib/sandbox-helpers.ts`. -/
def reactDomRender (files : List GeneratedFile) : List GeneratedFile :=
  files.map reactDomFile

/-- `applyTransformations` of `src/lib/sandbox-helpers.ts`. -/
def applyTransformations (files : List GeneratedFile) : List GeneratedFile :=
  reactDomRender (tailwindRewrite files)

/-! ## `src/lib/types.ts` — the `ProgressTracker` state machine

The process-wide store entry for one session is modelled as
`Option ProgressState` (`none` = no state for the session id). Each mutating
operation returns the new store entry together with whether `emitUpdate`
fired. `Date.now()` is passed in as the `now` argument. -/

/-- A step's status (`'pending' | 'in-progress' | 'completed' | 'error'`). -/
inductive StepStatus where
  | pending
  | inProgress
  | completed
  | error
deriving DecidableEq, Repr

/-- A step definition as passed to the constructor (no status yet). -/
structure StepDef where
  id : String
  label : String
  description : String
deriving DecidableEq, Repr

/-- `ProgressStep` of `src/lib/types.ts`. -/
structure ProgressStep where
  id : String
  label : String
  description : String
  status : StepStatus
  startTime : Option Nat := none
  endTime : Option Nat := none
  error : Option String := none
deriving DecidableEq, Repr

/-- `ProgressState` of `src/lib/types.ts`. -/
structure ProgressState where
  sessionId : String
  steps : List ProgressStep
  currentStepIndex : Int
  isComplete : Bool
  hasError : Bool
deriving DecidableEq, Repr

/-- The `ProgressTracker` constructor: all steps `pending`,
`currentStepIndex = -1`. -/
def initProgressState (sessionId : String) (defs : List StepDef) : ProgressState :=
  { sessionId := sessionId
    steps := defs.map (fun d =>
      { id := d.id, label := d.label, description := d.description
        status := StepStatus.pending })
    currentStepIndex := -1
    isComplete := false
    hasError := false }

/-- JavaScript `Array.prototype.findIndex` (as an `Option`; the source
compares the returned `-1` against `-1` and we match on `none` instead). -/
def findIdxA {α : Type} (p : α → Bool) : List α → Option Nat
  | [] => none
  | a :: t => if p a then some 0 else (findIdxA p t).map (· + 1)

/-- In-place update of the element at an index (`state.steps[i] = ...`). -/
def modifyAt {α : Type} : List α → Nat → (α → α) → List α
  | [], _, _ => []
  | a :: t, 0, f => f a :: t
  | a :: t, n + 1, f => a :: modifyAt t n f

/-- Result of one tracker operation: the new store entry for the session and
whether `emitUpdate` fired. -/
structure OpResult where
  store : Option ProgressState
  emitted : Bool
deriving DecidableEq, Repr

/-- `ProgressTracker.startStep`. -/
def startStep (store : Option ProgressState) (stepId : String) (now : Nat) : OpResult :=
  match store with
  | none => ⟨none, false⟩
  | some state =>
    match findIdxA (fun s => decide (s.id = stepId)) state.steps with
    | none => ⟨some state, false⟩
    | some i =>
      ⟨some { state with
          steps := modifyAt state.steps i (fun s =>
            { s with status := StepStatus.inProgress, startTime := some now })
          currentStepIndex := Int.ofNat i }, true⟩

/-- `ProgressTracker.completeStep`: marks the step, then sets `isComplete`
only when every step is `completed` (it is never reset). -/
def completeStep (store : Option ProgressState) (stepId : String) (now : Nat) : OpResult :=
  match store with
  | none => ⟨none, false⟩
  | some state =>
    match findIdxA (fun s => decide (s.id = stepId)) state.steps with
    | none => ⟨some state, false⟩
    | some i =>
      let steps' := modifyAt state.steps i (fun s =>
        { s with status := StepStatus.completed, endTime := some now })
      let allComplete := steps'.all (fun s => decide (s.status = StepStatus.completed))
      ⟨some { state with
          steps := steps'
          isComplete := if allComplete then true else state.isComplete }, true⟩

/-- `ProgressTracker.errorStep`. -/
def errorStep (store : Option ProgressState) (stepId : String) (msg : String)
    (now : Nat) : OpResult :=
  match store with
  | none => ⟨none, false⟩
  | some state =>
    match findIdxA (fun s => decide (s.id = stepId)) state.steps with
    | none => ⟨some state, false⟩
    | some i =>
      ⟨some { state with
          steps := modifyAt state.steps i (fun s =>
            { s with status := StepStatus.error, endTime := some now, error := some msg })
          hasError := true }, true⟩

/-- The state `startStep` stores when the step is found at index `i`. -/
def startStepState (st : ProgressState) (i : Nat) (now : Nat) : ProgressState :=
  { st with
    steps := modifyAt st.steps i (fun s =>
      { s with status := StepStatus.inProgress, startTime := some now })
    currentStepIndex := Int.ofNat i }

/-- The step list `completeStep` stores when the step is found at index `i`. -/
def completeStepSteps (st : ProgressState) (i : Nat) (now : Nat) : List ProgressStep :=
  modifyAt st.steps i (fun s =>
    { s with status := StepStatus.completed, endTime := some now })

/-- The state `completeStep` stores when the step is found at index `i`. -/
def completeStepState (st : ProgressState) (i : Nat) (now : Nat) : ProgressState :=
  { st with
    steps := completeStepSteps st i now
    isComplete :=
      if (completeStepSteps st i now).all
          (fun s => decide (s.status = StepStatus.completed)) then true
      else st.isComplete }

/-- The state `errorStep` stores when the step is found at index `i`. -/
def errorStepState (st : ProgressState) (i : Nat) (msg : String) (now : Nat) :
    ProgressState :=
  { st with
    steps := modifyAt st.steps i (fun s =>
      { s with status := StepStatus.error, endTime := some now, error := some msg })
    hasError := true }

/-- One tracker call, for describing externally performed call sequences. -/
inductive TrackOp where
  | start (stepId : String) (now : Nat)
  | complete (stepId : String) (now : Nat)
  | error (stepId : String) (msg : String) (now : Nat)
deriving DecidableEq, Repr

/-- Apply one tracker call to the store entry. -/
def applyOp (store : Option ProgressState) : TrackOp → Option ProgressState
  | TrackOp.start stepId now => (startStep store stepId now).store
  | TrackOp.complete stepId now => (completeStep store stepId now).store
  | TrackOp.error stepId msg now => (errorStep store stepId msg now).store

/-- Apply a sequence of tracker calls in order. -/
def applyOps (store : Option ProgressState) (ops : List TrackOp) : Option ProgressState :=
  ops.foldl applyOp store

/-- Drive the given step ids through `startStep` then `completeStep`, in
order. -/
def driveAll (store : Option ProgressState) (ids : List String) : Option ProgressState :=
  ids.foldl (fun st i => (completeStep (startStep st i 0).store i 0).store) store

/-- Does a tracker call start or complete the given step id? (`errorStep`
calls never do.) -/
def opDrivesId : TrackOp → String → Bool
  | TrackOp.start stepId _, i => decide (stepId = i)
  | TrackOp.complete stepId _, i => decide (stepId = i)
  | TrackOp.error _ _ _, _ => false

/-! ## `src/lib/actions/generate-app.ts` — the generation pipeline

The three awaited collaborators (LLM generation, Benchify fixer, sandbox
creation) are supplied by an oracle environment; a thrown exception is an
`Except.error` carrying the message. The sandbox call may also drive the
progress tracker, so the environment carries the tracker calls `createSandbox`
performs before it returns or throws. -/

/-- `SandboxResult` as `createSandbox` returns it. -/
structure SandboxRes where
  sbxId : String
  template : String
  url : String
  allFiles : List GeneratedFile
  buildErrors : Option (List BuildError)
  hasErrors : Bool
deriving DecidableEq, Repr

/-- The success shape of `GenerateAppResult`. -/
structure SuccessPayload where
  originalFiles : List GeneratedFile
  repairedFiles : List GeneratedFile
  buildOutput : String
  previewUrl : String
  sandboxId : String
  buildErrors : Option (List BuildError)
  hasErrors : Bool
  sessionId : Option String
  editInstruction : Option String
deriving DecidableEq, Repr

/-- The error shape of `GenerateAppResult` (`{ error, message, sessionId }`). -/
structure ErrorPayload where
  error : String
  message : String
  sessionId : Option String
deriving DecidableEq, Repr

/-- `GenerateAppResult` of `src/lib/actions/generate-app.ts`. -/
inductive GenerateAppResult where
  | ok (p : SuccessPayload)
  | err (e : ErrorPayload)
deriving DecidableEq, Repr

/-- Oracle environment: outcomes of the awaited collaborator calls. -/
structure PipelineEnv where
  genResult : Except String (List GeneratedFile)
  fixerResult : Except String (Option (List GeneratedFile))
  sandboxOps : List TrackOp
  sandboxRun : List GeneratedFile → Except String SandboxRes

/-- `GenerateAppInput` (the fields the modelled control flow reads). -/
structure GenerateAppInput where
  description : String
  existingFiles : Option (List GeneratedFile) := none
  editInstruction : Option String := none
  useBuggyCode : Bool := false
  useFixer : Bool := false
  sessionId : Option String := none

/-- The step list `generateApp` builds (fresh-generation variant;
`fixing-code` present only with `useFixer`). -/
def generateAppSteps (useFixer : Bool) : List StepDef :=
  [{ id := "generating-code", label := "Generating Code"
     description := "Creating components and functionality with AI assistance" }] ++
  (if useFixer then
    [{ id := "fixing-code", label := "Optimizing Code"
       description := "Running Benchify fixer to optimize and fix potential issues" }]
   else []) ++
  [{ id := "creating-sandbox", label := "Creating Sandbox"
     description := "Setting up development environment" },
   { id := "installing-deps", label := "Installing Dependencies"
     description := "Installing required packages and dependencies" },
   { id := "starting-server", label := "Starting Dev Server"
     description := "Starting development server and running health checks" },
   { id := "finalizing-preview", label := "Loading Application"
     description := "Waiting for your application to fully load and render" }]

/-- The tracker part of `generateApp`'s `catch` block: if a state exists and
`currentStepIndex >= 0`, mark the step at that index as failed with the
exception's message. (For the unreachable case of an index past the step
list the lookup is a no-op.) -/
def catchTracker (msg : String) (tr : Option ProgressState) : Option ProgressState :=
  match tr with
  | none => none
  | some st =>
    if 0 ≤ st.currentStepIndex then
      match st.steps.get? st.currentStepIndex.toNat with
      | some s => (errorStep (some st) s.id msg 0).store
      | none => some st
    else some st

/-- The `catch` block of `generateApp`: mark the current step as failed and
return the structured error object. -/
def catchGenerateApp (msg : String) (tr : Option ProgressState)
    (sessionId : Option String) : GenerateAppResult × Option ProgressState :=
  (GenerateAppResult.err { error := "Failed to generate app", message := msg
                           sessionId := sessionId }, catchTracker msg tr)

/-- The initial store entry `generateApp` creates (only when a session id is
supplied). -/
def generateAppTracker0 (input : GenerateAppInput) : Option ProgressState :=
  match input.sessionId with
  | some sid => some (initProgressState sid (generateAppSteps input.useFixer))
  | none => none

/-- Step 2 of `generateApp` (the fixer `try`/`catch` block): the working file
set after the best-effort repair, and the tracker state after the fixer round.
On a thrown fixer error, or a response without the suggested-files structure,
the pre-repair files are kept. -/
def generateAppFixerPhase (env : PipelineEnv) (useFixer : Bool)
    (filesToSandbox : List GeneratedFile) (t2 : Option ProgressState) :
    List GeneratedFile × Option ProgressState :=
  if useFixer then
    let ta := (startStep t2 "fixing-code" 0).store
    match env.fixerResult with
    | Except.ok (some fixedFiles) => (fixedFiles, (completeStep ta "fixing-code" 0).store)
    | Except.ok none => (filesToSandbox, (completeStep ta "fixing-code" 0).store)
    | Except.error _ =>
      (filesToSandbox,
        (errorStep ta "fixing-code"
          "Fixer optimization failed, continuing with original code" 0).store)
  else (filesToSandbox, t2)

/-- The success payload `generateApp` assembles from the sandbox result. -/
def sandboxOkPayload (input : GenerateAppInput) (filesToSandbox : List GeneratedFile)
    (sb : SandboxRes) : SuccessPayload :=
  { originalFiles := filesToSandbox
    repairedFiles := sb.allFiles
    buildOutput := "Sandbox created with template: " ++ sb.template ++ ", ID: " ++ sb.sbxId
    previewUrl := sb.url
    sandboxId := sb.sbxId
    buildErrors := sb.buildErrors
    hasErrors := sb.hasErrors
    sessionId := input.sessionId
    editInstruction :=
      match input.editInstruction with
      | some s => if s = "" then none else some s
      | none => none }

/-- Step 3 of `generateApp` (`createSandbox` and result assembly): a thrown
sandbox error reaches the outer `catch` after the sandbox call's own tracker
operations have run. -/
def generateAppSandboxPhase (env : PipelineEnv) (input : GenerateAppInput)
    (filesToSandbox : List GeneratedFile)
    (fx : List GeneratedFile × Option ProgressState) :
    GenerateAppResult × Option ProgressState :=
  let t4 := (startStep fx.2 "creating-sandbox" 0).store
  let t5 := applyOps t4 env.sandboxOps
  match env.sandboxRun fx.1 with
  | Except.error msg => catchGenerateApp msg t5 input.sessionId
  | Except.ok sandboxResult =>
    let t6 := (completeStep t5 "finalizing-preview" 0).store
    (GenerateAppResult.ok (sandboxOkPayload input filesToSandbox sandboxResult), t6)

/-- `generateApp` of `src/lib/actions/generate-app.ts`: generation step,
best-effort fixer step (its own `try`/`catch`), sandbox step, result
assembly; any step's exception reaches the outer `catch`. Returns the result
together with the session's final progress-store entry. -/
def generateApp (env : PipelineEnv) (input : GenerateAppInput) :
    GenerateAppResult × Option ProgressState :=
  let t1 := (startStep (generateAppTracker0 input) "generating-code" 0).store
  match env.genResult with
  | Except.error msg => catchGenerateApp msg t1 input.sessionId
  | Except.ok filesToSandbox =>
    let t2 := (completeStep t1 "generating-code" 0).store
    generateAppSandboxPhase env input filesToSandbox
      (generateAppFixerPhase env input.useFixer filesToSandbox t2)

/-- Well-formedness of a session state relative to the fixed step-id list:
the steps carry exactly those ids and `currentStepIndex` is `-1` or a valid
index. Every tracker operation preserves it. -/
def trackerWF (st : ProgressState) (ids : List String) : Prop :=
  st.steps.map (fun s => s.id) = ids ∧
  (st.currentStepIndex = -1 ∨
    ∃ i : Nat, st.currentStepIndex = Int.ofNat i ∧ i < st.steps.length)

/-- Well-formedness of a store entry (vacuous when absent). -/
def optionWF (tr : Option ProgressState) (ids : List String) : Prop :=
  ∀ st, tr = some st → trackerWF st ids

/-! ## `updateSandboxFiles` — update-in-place sandbox mode

Oracle environment for the remote sandbox: outcomes of `Sandbox.connect`,
`sandbox.files.write`, the npm-install command, each health-check attempt and
the final file read-back. `extractNewPackages` (JSON parsing of
`package.json`; it never throws — a parse failure yields `[]`) is abstracted
as the `newPackages` oracle field, since the claims concern only the failure
handling downstream of it. -/

/-- A remote command result (`{ stdout, stderr, exitCode }`). -/
structure CmdResult where
  stdout : String
  stderr : String
  exitCode : Int
deriving DecidableEq, Repr

/-- Oracle environment for `updateSandboxFiles`. -/
structure UpdateEnv where
  connectResult : Except String Unit
  writeResult : Except String Unit
  newPackages : List String
  installResult : Except String CmdResult
  healthResult : Nat → Except String CmdResult
  fetchResult : Except String (List GeneratedFile)
  sbxId : String
  host : String

/-- The bounded health-check poll loop: attempts numbered from `attempt`,
`fuel` attempts left; a thrown health check is caught and the loop continues;
the loop stops early at the first `200` response. -/
def pollLoop (health : Nat → Except String CmdResult) : Nat → Nat → Bool
  | _, 0 => false
  | attempt, fuel + 1 =>
    match health attempt with
    | Except.ok r => if r.stdout = "200" then true else pollLoop health (attempt + 1) fuel
    | Except.error _ => pollLoop health (attempt + 1) fuel

/-- `updateSandboxFiles` of the sandbox module: connect, transform, write,
best-effort dependency install (its `try`/`catch` swallows the failure),
hot-reload wait, 10-attempt health poll, file read-back. `buildErrors` is
always `undefined` in this mode and `hasErrors` reflects only the health
poll. Exceptions of `connect`, `write` and the read-back propagate. -/
def updateSandboxFiles (env : UpdateEnv) (files : List GeneratedFile)
    (tracker : Option ProgressState) : Except String (SandboxRes × Option ProgressState) :=
  match env.connectResult with
  | Except.error e => Except.error e
  | Except.ok _ =>
    let transformedFiles := applyTransformations files
    let tr1 := (startStep tracker "updating-files" 0).store
    match env.writeResult with
    | Except.error e => Except.error e
    | Except.ok _ =>
      let tr2 := (completeStep tr1 "updating-files" 0).store
      let tr3 := (startStep tr2 "installing-deps" 0).store
      let _installOutcome :=
        match transformedFiles.find? (fun f => decide (f.path = "package.json")) with
        | some pj =>
          if env.newPackages.length > 0 then some (pj.path, env.installResult) else none
        | none => none
      let tr4 := (completeStep tr3 "installing-deps" 0).store
      let tr5 := (startStep tr4 "hot-reloading" 0).store
      let tr6 := (completeStep tr5 "hot-reloading" 0).store
      let tr7 := (startStep tr6 "verifying-update" 0).store
      let isServerReady := pollLoop env.healthResult 1 10
      let tr8 := (completeStep tr7 "verifying-update" 0).store
      let tr9 := (startStep tr8 "finalizing-preview" 0).store
      match env.fetchResult with
      | Except.error e => Except.error e
      | Except.ok allFiles =>
        let tr10 := (completeStep tr9 "finalizing-preview" 0).store
        Except.ok
          ({ sbxId := env.sbxId, template := "vite-support"
             url := "https://" ++ env.host, allFiles := allFiles
             buildErrors := none, hasErrors := !isServerReady }, tr10)

/-- Equality on `Except` outcomes is decidable (used to evaluate the model on
concrete environments). -/
instance {ε α : Type} [DecidableEq ε] [DecidableEq α] : DecidableEq (Except ε α) := fun x y =>
  match x, y with
  | Except.ok a, Except.ok b =>
    if h : a = b then isTrue (by rw [h]) else isFalse (by intro hxy; cases hxy; exact h rfl)
  | Except.error a, Except.error b =>
    if h : a = b then isTrue (by rw [h]) else isFalse (by intro hxy; cases hxy; exact h rfl)
  | Except.ok _, Except.error _ => isFalse (by intro h; cases h)
  | Except.error _, Except.ok _ => isFalse (by intro h; cases h)

/-- Is the pipeline result the success shape? -/
def isOkResult : GenerateAppResult → Bool
  | GenerateAppResult.ok _ => true
  | GenerateAppResult.err _ => false

/-! ## Property bundles used by the claim theorems -/

/-- The merge contract of §4.1/§8 of the spec (claim C3). -/
def mergeSpecHolds (e u : List GeneratedFile) : Prop :=
  (paths (mergeFiles e u)).Nodup ∧
  (∀ p, p ∈ paths (mergeFiles e u) ↔ p ∈ paths e ∨ p ∈ paths u) ∧
  (∀ f ∈ u, f ∈ mergeFiles e u) ∧
  (∀ f ∈ e, f.path ∉ paths u → f ∈ mergeFiles e u) ∧
  mergeFiles e [] = e

/-! ## Concrete fixtures for witnesses and counterexamples -/

/-- A triggered CSS file. -/
def demoCss : GeneratedFile := { path := "src/index.css", contents := "@tailwind base;" }

/-- A file matching no rewrite trigger. -/
def demoTs : GeneratedFile := { path := "src/util.ts", contents := "export const x = 1;" }

/-- Fixture list for the transformation witness. -/
def demoFiles : List GeneratedFile := [demoCss, demoTs]

/-- Pipeline environment for the fixer-recovery scenario: generation
succeeds, the fixer throws, the sandbox performs the tracker calls of
`createSandbox` and succeeds. -/
def envFixerFails : PipelineEnv :=
  { genResult := Except.ok [{ path := "src/App.tsx", contents := "export default 1" }]
    fixerResult := Except.error "fixer boom"
    sandboxOps := [TrackOp.complete "creating-sandbox" 0, TrackOp.start "installing-deps" 0,
      TrackOp.complete "installing-deps" 0, TrackOp.start "starting-server" 0,
      TrackOp.complete "starting-server" 0, TrackOp.start "finalizing-preview" 0]
    sandboxRun := fun _ => Except.ok
      { sbxId := "sbx1", template := "vite-support", url := "https://preview"
        allFiles := [{ path := "src/App.tsx", contents := "export default 1" }]
        buildErrors := none, hasErrors := false } }

/-- Input for the fixer-recovery scenario: fixer enabled, session present. -/
def inputFixer : GenerateAppInput :=
  { description := "a red button", useFixer := true, sessionId := some "sess" }

/-- Existing files for the merge witness. -/
def mergeE : List GeneratedFile :=
  [{ path := "a", contents := "1" }, { path := "b", contents := "2" }]

/-- Update files for the merge witness. -/
def mergeU : List GeneratedFile :=
  [{ path := "b", contents := "3" }, { path := "c", contents := "4" }]

/-- Pipeline environment whose generation step throws. -/
def envGenFails : PipelineEnv :=
  { genResult := Except.error "model unavailable"
    fixerResult := Except.ok none
    sandboxOps := []
    sandboxRun := fun _ => Except.error "unreachable" }

/-- A file list containing a `package.json`. -/
def pkgFiles : List GeneratedFile :=
  [{ path := "package.json", contents := "x" }]

/-- Update-sandbox environment whose install command throws and whose health
checks all throw; connect, write and read-back succeed. -/
def uEnvFail : UpdateEnv :=
  { connectResult := Except.ok (), writeResult := Except.ok ()
    newPackages := ["leftpad@1.0.0"], installResult := Except.error "npm boom"
    healthResult := fun _ => Except.error "curl failed"
    fetchResult := Except.ok [], sbxId := "sb", host := "h" }

/-- Update-sandbox environment where everything succeeds. -/
def uEnvOk : UpdateEnv :=
  { connectResult := Except.ok (), writeResult := Except.ok ()
    newPackages := [], installResult := Except.ok { stdout := "", stderr := "", exitCode := 0 }
    healthResult := fun _ => Except.ok { stdout := "200", stderr := "", exitCode := 0 }
    fetchResult := Except.ok pkgFiles, sbxId := "sb", host := "h" }

/-- A session state with one errored step and one pending step. -/
def stErrFix : ProgressState :=
  { sessionId := "sess"
    steps := [{ id := "a", label := "A", description := "", status := StepStatus.error },
              { id := "b", label := "B", description := "", status := StepStatus.pending }]
    currentStepIndex := 0
    isComplete := false
    hasError := true }

/-! ## Theorems -/

theorem mapKeys_mapSet_mem (m : List (String × GeneratedFile)) (k : String)
    (v : GeneratedFile) (p : String) :
    p ∈ mapKeys (mapSet m k v) ↔ p ∈ mapKeys m ∨ p = k := by
  induction m with
  | nil => simp [mapSet, mapKeys]
  | cons q t ih =>
    rcases q with ⟨k', v'⟩
    by_cases h : k' = k
    · subst h
      simp [mapSet, mapKeys]
      tauto
    · simp [mapSet, h, mapKeys] at ih ⊢
      tauto

theorem mapKeys_mapSet_nodup (m : List (String × GeneratedFile)) (k : String)
    (v : GeneratedFile) (h : (mapKeys m).Nodup) : (mapKeys (mapSet m k v)).Nodup := by
  induction m with
  | nil => simp [mapSet, mapKeys]
  | cons q t ih =>
    rcases q with ⟨k', v'⟩
    rcases List.nodup_cons.mp (show (k' :: mapKeys t).Nodup from h) with ⟨hhd, htl⟩
    by_cases hk : k' = k
    · subst hk
      have e1 : mapSet ((k', v') :: t) k' v = (k', v) :: t := by simp [mapSet]
      rw [e1]
      exact List.nodup_cons.mpr ⟨hhd, htl⟩
    · have e1 : mapSet ((k', v') :: t) k v = (k', v') :: mapSet t k v := by
        simp [mapSet, hk]
      rw [e1]
      refine List.nodup_cons.mpr ⟨?_, ih htl⟩
      show k' ∉ mapKeys (mapSet t k v)
      rw [mapKeys_mapSet_mem]
      rintro (h' | rfl)
      · exact hhd h'
      · exact hk rfl

theorem mapSet_paired (m : List (String × GeneratedFile)) (k : String) (v : GeneratedFile)
    (hm : ∀ p ∈ m, (p.2).path = p.1) (hv : v.path = k) :
    ∀ p ∈ mapSet m k v, (p.2).path = p.1 := by
  induction m with
  | nil =>
    intro p hp
    rcases List.mem_singleton.mp hp with rfl
    exact hv
  | cons q t ih =>
    rcases q with ⟨k', v'⟩
    by_cases h : k' = k
    · subst h
      have e1 : mapSet ((k', v') :: t) k' v = (k', v) :: t := by simp [mapSet]
      rw [e1]
      intro p hp
      rcases List.mem_cons.mp hp with rfl | hp'
      · exact hv
      · exact hm p (List.mem_cons_of_mem _ hp')
    · have e1 : mapSet ((k', v') :: t) k v = (k', v') :: mapSet t k v := by
        simp [mapSet, h]
      rw [e1]
      intro p hp
      rcases List.mem_cons.mp hp with rfl | hp'
      · exact hm _ (List.mem_cons_self _ _)
      · exact ih (fun q hq => hm q (List.mem_cons_of_mem _ hq)) p hp'

theorem lookupM_mapSet_self (m : List (String × GeneratedFile)) (k : String)
    (v : GeneratedFile) : lookupM (mapSet m k v) k = some v := by
  induction m with
  | nil => simp [mapSet, lookupM]
  | cons q t ih =>
    rcases q with ⟨k', v'⟩
    by_cases h : k' = k
    · subst h
      have e1 : mapSet ((k', v') :: t) k' v = (k', v) :: t := by simp [mapSet]
      rw [e1]
      simp [lookupM]
    · have e1 : mapSet ((k', v') :: t) k v = (k', v') :: mapSet t k v := by
        simp [mapSet, h]
      rw [e1]
      simp [lookupM, h, ih]

theorem lookupM_mapSet_ne (m : List (String × GeneratedFile)) (k k' : String)
    (v : GeneratedFile) (hne : k' ≠ k) : lookupM (mapSet m k v) k' = lookupM m k' := by
  induction m with
  | nil =>
    have h1 : ¬ k = k' := fun h => hne h.symm
    simp [mapSet, lookupM, h1]
  | cons q t ih =>
    rcases q with ⟨kq, vq⟩
    by_cases h : kq = k
    · subst h
      have e1 : mapSet ((kq, vq) :: t) kq v = (kq, v) :: t := by simp [mapSet]
      rw [e1]
      have h1 : ¬ kq = k' := fun h' => hne h'.symm
      simp [lookupM, h1]
    · have e1 : mapSet ((kq, vq) :: t) k v = (kq, vq) :: mapSet t k v := by
        simp [mapSet, h]
      rw [e1]
      by_cases h2 : kq = k' <;> simp [lookupM, h2, ih]

theorem mapSet_append_of_not_mem (m : List (String × GeneratedFile)) (k : String)
    (v : GeneratedFile) (h : k ∉ mapKeys m) : mapSet m k v = m ++ [(k, v)] := by
  induction m with
  | nil => rfl
  | cons q t ih =>
    rcases q with ⟨k', v'⟩
    have h1 : ¬ k' = k := by
      intro hk
      exact h (by simp [mapKeys, hk])
    have h2 : k ∉ mapKeys t := fun hk => h (by simp [mapKeys] at hk ⊢; tauto)
    simp [mapSet, h1, ih h2]

theorem lookupM_mem (m : List (String × GeneratedFile)) (k : String) (v : GeneratedFile)
    (h : lookupM m k = some v) : (k, v) ∈ m := by
  induction m with
  | nil => simp [lookupM] at h
  | cons q t ih =>
    rcases q with ⟨k', v'⟩
    by_cases hk : k' = k
    · subst hk
      simp [lookupM] at h
      simp [h]
    · simp only [lookupM, if_neg hk] at h
      exact List.mem_cons_of_mem _ (ih h)

theorem mapInsertAll_nil_eq (e : List GeneratedFile) :
    ∀ m : List (String × GeneratedFile),
      (∀ f ∈ e, f.path ∉ mapKeys m) → (paths e).Nodup →
      mapInsertAll e m = m ++ e.map (fun f => (f.path, f)) := by
  induction e with
  | nil => intro m _ _; simp [mapInsertAll]
  | cons f t ih =>
    intro m hdisj hnd
    have hf : f.path ∉ mapKeys m := hdisj f (List.mem_cons_self f t)
    have hset : mapSet m f.path f = m ++ [(f.path, f)] :=
      mapSet_append_of_not_mem m f.path f hf
    have hnd' : (paths t).Nodup := (List.nodup_cons.mp hnd).2
    have hhd : f.path ∉ paths t := (List.nodup_cons.mp hnd).1
    have hstep : mapInsertAll (f :: t) m = mapInsertAll t (m ++ [(f.path, f)]) := by
      simp [mapInsertAll, hset]
    rw [hstep, ih (m ++ [(f.path, f)]) ?_ hnd']
    · simp
    · intro g hg
      unfold mapKeys
      rw [List.map_append]
      simp only [List.mem_append, List.map_cons, List.map_nil, List.mem_singleton]
      rintro (h | h)
      · exact hdisj g (List.mem_cons_of_mem f hg) h
      · exact hhd (h ▸ List.mem_map_of_mem (fun f => f.path) hg)

theorem mapInsertAll_keys_mem (u : List GeneratedFile) :
    ∀ (m : List (String × GeneratedFile)) (p : String),
      p ∈ mapKeys (mapInsertAll u m) ↔ p ∈ mapKeys m ∨ p ∈ paths u := by
  induction u with
  | nil => intro m p; simp [mapInsertAll, paths]
  | cons f t ih =>
    intro m p
    have hstep : mapInsertAll (f :: t) m = mapInsertAll t (mapSet m f.path f) := rfl
    rw [hstep, ih, mapKeys_mapSet_mem]
    simp [paths]
    tauto

theorem mapInsertAll_keys_nodup (u : List GeneratedFile) :
    ∀ m : List (String × GeneratedFile),
      (mapKeys m).Nodup → (mapKeys (mapInsertAll u m)).Nodup := by
  induction u with
  | nil => intro m h; exact h
  | cons f t ih =>
    intro m h
    exact ih _ (mapKeys_mapSet_nodup m f.path f h)

theorem mapInsertAll_paired (u : List GeneratedFile) :
    ∀ m : List (String × GeneratedFile),
      (∀ p ∈ m, (p.2).path = p.1) → ∀ p ∈ mapInsertAll u m, (p.2).path = p.1 := by
  induction u with
  | nil => intro m h; exact h
  | cons f t ih =>
    intro m h
    exact ih _ (mapSet_paired m f.path f h rfl)

theorem findByPath_eq_none (u : List GeneratedFile) (k : String) (h : k ∉ paths u) :
    findByPath u k = none := by
  induction u with
  | nil => rfl
  | cons f t ih =>
    have h1 : ¬ f.path = k := by
      intro hk
      exact h (by simp [paths, hk])
    have h2 : k ∉ paths t := fun hk => h (by simp [paths] at hk ⊢; tauto)
    simp [findByPath, h1, ih h2]

theorem findByPath_self (u : List GeneratedFile) (f : GeneratedFile)
    (hnd : (paths u).Nodup) (hf : f ∈ u) : findByPath u f.path = some f := by
  induction u with
  | nil => simp at hf
  | cons g t ih =>
    rcases List.mem_cons.mp hf with rfl | hf'
    · simp [findByPath]
    · have hnd' : (paths t).Nodup := (List.nodup_cons.mp (by simpa [paths] using hnd)).2
      have hhd : g.path ∉ paths t := (List.nodup_cons.mp (by simpa [paths] using hnd)).1
      have : ¬ g.path = f.path := by
        intro hk
        exact hhd (hk ▸ List.mem_map_of_mem (fun f => f.path) hf')
      simp [findByPath, this, ih hnd' hf']

theorem mapInsertAll_lookup (u : List GeneratedFile) (hnd : (paths u).Nodup) :
    ∀ (m : List (String × GeneratedFile)) (k : String),
      lookupM (mapInsertAll u m) k =
        match findByPath u k with
        | some f => some f
        | none => lookupM m k := by
  induction u with
  | nil => intro m k; simp [mapInsertAll, findByPath]
  | cons f t ih =>
    intro m k
    have hnd' : (paths t).Nodup := (List.nodup_cons.mp (by simpa [paths] using hnd)).2
    have hhd : f.path ∉ paths t := (List.nodup_cons.mp (by simpa [paths] using hnd)).1
    have hstep : mapInsertAll (f :: t) m = mapInsertAll t (mapSet m f.path f) := rfl
    rw [hstep, ih hnd']
    by_cases hk : f.path = k
    · subst hk
      rw [findByPath_eq_none t f.path hhd]
      simp [findByPath, lookupM_mapSet_self]
    · cases hft : findByPath t k with
      | some g => simp [findByPath, hk, hft]
      | none => simp [findByPath, hk, hft, lookupM_mapSet_ne m f.path k f (fun h => hk h.symm)]

theorem lookupM_basemap (e : List GeneratedFile) (f : GeneratedFile)
    (hnd : (paths e).Nodup) (hf : f ∈ e) :
    lookupM (e.map (fun f => (f.path, f))) f.path = some f := by
  induction e with
  | nil => simp at hf
  | cons g t ih =>
    rcases List.mem_cons.mp hf with rfl | hf'
    · simp [lookupM]
    · have hnd' : (paths t).Nodup := (List.nodup_cons.mp (by simpa [paths] using hnd)).2
      have hhd : g.path ∉ paths t := (List.nodup_cons.mp (by simpa [paths] using hnd)).1
      have : ¬ g.path = f.path := by
        intro hk
        exact hhd (hk ▸ List.mem_map_of_mem (fun f => f.path) hf')
      simp [lookupM, this, ih hnd' hf']

/-- The base map built from the existing files has the existing paths as
keys. -/
theorem basemap_keys (e : List GeneratedFile) :
    mapKeys (e.map (fun f => (f.path, f))) = paths e := by
  simp [mapKeys, paths, List.map_map]

theorem basemap_paired (e : List GeneratedFile) :
    ∀ p ∈ e.map (fun f => (f.path, f)), (p.2).path = p.1 := by
  intro p hp
  rcases List.mem_map.mp hp with ⟨f, _, rfl⟩
  rfl

theorem basemap_values (e : List GeneratedFile) :
    (e.map (fun f => (f.path, f))).map Prod.snd = e := by
  induction e with
  | nil => rfl
  | cons f t ih => simp only [List.map_cons, ih]

/-- C3: for file sets (no duplicate paths, per the data model's `FileSet`
invariant), `mergeFiles existing updates` contains exactly the union of the
two path sets with no duplicate paths; every file of `updates` appears in the
result (its path holding the `updates` version), every file of `existing`
whose path is not updated appears unchanged, and `mergeFiles e [] = e`. -/
theorem mergeSpec_of_nodup (e u : List GeneratedFile)
    (he : (paths e).Nodup) (hu : (paths u).Nodup) : mergeSpecHolds e u := by
  have hm0 : mapInsertAll e [] = e.map (fun f => (f.path, f)) := by
    have := mapInsertAll_nil_eq e [] (by intro f _; simp [mapKeys]) he
    simpa using this
  have hm0keys : mapKeys (mapInsertAll e []) = paths e := by
    rw [hm0]; exact basemap_keys e
  have hm0nodup : (mapKeys (mapInsertAll e [])).Nodup := by
    rw [hm0keys]; exact he
  have hm0paired : ∀ p ∈ mapInsertAll e [], (p.2).path = p.1 := by
    rw [hm0]; exact basemap_paired e
  have hMpaired : ∀ p ∈ mapInsertAll u (mapInsertAll e []), (p.2).path = p.1 :=
    mapInsertAll_paired u _ hm0paired
  have hpathsMerge : paths (mergeFiles e u) = mapKeys (mapInsertAll u (mapInsertAll e [])) := by
    unfold mergeFiles paths mapKeys
    rw [List.map_map]
    exact List.map_congr_left (fun p hp => hMpaired p hp)
  refine ⟨?_, ?_, ?_, ?_, ?_⟩
  · rw [hpathsMerge]
    exact mapInsertAll_keys_nodup u _ hm0nodup
  · intro p
    rw [hpathsMerge, mapInsertAll_keys_mem, hm0keys]
  · intro f hf
    have hfind : findByPath u f.path = some f := findByPath_self u f hu hf
    have hlook : lookupM (mapInsertAll u (mapInsertAll e [])) f.path = some f := by
      rw [mapInsertAll_lookup u hu, hfind]
    exact List.mem_map_of_mem Prod.snd (lookupM_mem _ _ _ hlook)
  · intro f hf hnp
    have hfind : findByPath u f.path = none := findByPath_eq_none u f.path hnp
    have hlook : lookupM (mapInsertAll u (mapInsertAll e [])) f.path = some f := by
      rw [mapInsertAll_lookup u hu, hfind, hm0]
      exact lookupM_basemap e f he hf
    exact List.mem_map_of_mem Prod.snd (lookupM_mem _ _ _ hlook)
  · show (mapInsertAll [] (mapInsertAll e [])).map Prod.snd = e
    rw [show mapInsertAll [] (mapInsertAll e []) = mapInsertAll e [] from rfl, hm0]
    exact basemap_values e

theorem parseErrorsFromOutput_build (output : String) :
    ∀ e ∈ parseErrorsFromOutput output, e.type = ErrType.build := by
  intro e he
  rcases List.mem_map.mp he with ⟨line, _, rfl⟩
  rfl

theorem parseErrorsFromOutput_ne_nil (output : String) :
    parseErrorsFromOutput output ≠ [] ↔
      ∃ line ∈ splitLines output,
        lineHasCodeError line = true ∧ lineIsInfrastructure line = false := by
  unfold parseErrorsFromOutput
  rw [Ne, List.map_eq_nil_iff, List.filter_eq_nil_iff]
  push_neg
  constructor
  · rintro ⟨line, hmem, hp⟩
    refine ⟨line, hmem, ?_, ?_⟩
    · exact (Bool.and_eq_true _ _ |>.mp hp).1
    · have := (Bool.and_eq_true _ _ |>.mp hp).2
      simpa using this
  · rintro ⟨line, hmem, h1, h2⟩
    exact ⟨line, hmem, by simp [h1, h2]⟩

/-- C1 (amended): the decision table of `detectCodeErrors` as the code
implements it. When code markers are present and no infrastructure marker is,
the result has `hasErrors = true`, `isInfrastructureOnly = false`, every
reported error is of kind `build`, and the error list is nonempty exactly
when some output line holds a code marker without a line-level infrastructure
marker. Infrastructure markers with no code markers give
`⟨false, [], true⟩`; neither kind gives `⟨false, [], false⟩`; and — contrary
to the original claim — when both kinds are present the result is
`⟨false, [], false⟩`: the code error is NOT surfaced. -/
theorem detectCodeErrors_decision_table (output : String) :
    (hasCodeMarkers output = true → isInfrastructureMarker output = false →
      (detectCodeErrors output).hasErrors = true ∧
      (detectCodeErrors output).isInfrastructureOnly = false ∧
      (∀ e ∈ (detectCodeErrors output).errors, e.type = ErrType.build) ∧
      ((detectCodeErrors output).errors ≠ [] ↔
        ∃ line ∈ splitLines output,
          lineHasCodeError line = true ∧ lineIsInfrastructure line = false)) ∧
    (isInfrastructureMarker output = true → hasCodeMarkers output = false →
      detectCodeErrors output =
        { hasErrors := false, errors := [], isInfrastructureOnly := true }) ∧
    (hasCodeMarkers output = false → isInfrastructureMarker output = false →
      detectCodeErrors output =
        { hasErrors := false, errors := [], isInfrastructureOnly := false }) ∧
    (hasCodeMarkers output = true → isInfrastructureMarker output = true →
      detectCodeErrors output =
        { hasErrors := false, errors := [], isInfrastructureOnly := false }) := by
  refine ⟨?_, ?_, ?_, ?_⟩
  · intro hc hi
    have hd : detectCodeErrors output =
        { hasErrors := true, errors := parseErrorsFromOutput output
          isInfrastructureOnly := false } := by
      unfold detectCodeErrors
      simp [hc, hi]
    rw [hd]
    exact ⟨rfl, rfl, parseErrorsFromOutput_build output, parseErrorsFromOutput_ne_nil output⟩
  · intro hi hc
    unfold detectCodeErrors
    simp [hc, hi]
  · intro hc hi
    unfold detectCodeErrors
    simp [hc, hi]
  · intro hc hi
    unfold detectCodeErrors
    simp [hc, hi]

/-- C1 (counterexample): the claim as stated is false on the code. First,
an output holding both a real `SyntaxError` and infrastructure noise is
classified `⟨false, [], false⟩` — the syntax error is not surfaced, although
the claim requires `hasErrors = true` whenever a code marker is present.
Second, an output whose only code-marker line also matches the (broader)
line-level infrastructure test yields `hasErrors = true` with an empty error
list, against the claim's "at least one BuildError". -/
theorem detectCodeErrors_claim1_counterexample :
    (hasCodeMarkers "SyntaxError: bad\nEACCES: permission denied, open /app/x" = true ∧
     detectCodeErrors "SyntaxError: bad\nEACCES: permission denied, open /app/x" =
       { hasErrors := false, errors := [], isInfrastructureOnly := false }) ∧
    (hasCodeMarkers "SyntaxError failed to load config" = true ∧
     isInfrastructureMarker "SyntaxError failed to load config" = false ∧
     detectCodeErrors "SyntaxError failed to load config" =
       { hasErrors := true, errors := [], isInfrastructureOnly := false }) := by
  decide

/-- C1 (witness): the amended decision table applied at the concrete output
`"Unexpected token x"`. -/
theorem detectCodeErrors_decision_table_witness :
    hasCodeMarkers "Unexpected token x" = true ∧
    isInfrastructureMarker "Unexpected token x" = false ∧
    (detectCodeErrors "Unexpected token x").hasErrors = true ∧
    (detectCodeErrors "Unexpected token x").errors ≠ [] :=
  ⟨by decide, by decide,
    ((detectCodeErrors_decision_table "Unexpected token x").1 (by decide) (by decide)).1,
    ((detectCodeErrors_decision_table "Unexpected token x").1 (by decide) (by decide)).2.2.2.mpr
      (by decide)⟩

/-- C8: `parseTypeScriptErrors` on an output containing the line
`src/App.tsx(10,5): error TS2304: Cannot find name 'Foo'.` yields exactly one
error of kind `typescript` with file `src/App.tsx`, line 10, column 5 and the
trailing message; and a line of the same shape whose message contains
`is deprecated` (likewise `unused`, `implicit any`) yields no error. -/
theorem parseTypeScriptErrors_claim8 :
    parseTypeScriptErrors
        "Build started\nsrc/App.tsx(10,5): error TS2304: Cannot find name 'Foo'.\nDone" =
      [{ type := ErrType.typescript, message := "Cannot find name 'Foo'."
         file := some "src/App.tsx", line := some 10, column := some 5 }] ∧
    parseTypeScriptErrors "src/App.tsx(3,1): error TS6385: Foo is deprecated." = [] ∧
    parseTypeScriptErrors "src/App.tsx(4,2): error TS6133: unused variable x." = [] ∧
    parseTypeScriptErrors "src/App.tsx(5,3): error TS7006: parameter has an implicit any type." =
      [] := by
  decide

theorem tailwindFile_not_trigger (f : GeneratedFile)
    (h : (sEndsWith f.path ".css" && sIncludes f.contents "@tailwind") = false) :
    tailwindFile f = f := by
  simp [tailwindFile, h]

theorem reactDomFile_not_trigger (f : GeneratedFile)
    (h : ((sEndsWith f.path ".tsx" || sEndsWith f.path ".jsx") &&
      sIncludes f.contents "ReactDOM.render(") = false) :
    reactDomFile f = f := by
  rcases Bool.and_eq_false_iff.mp h with h1 | h1
  · simp [reactDomFile, h1]
  · unfold reactDomFile
    split
    · simp [h1]
    · rfl

theorem tailwindFile_idem (f : GeneratedFile) :
    tailwindFile (tailwindFile f) = tailwindFile f := by
  by_cases h : (sEndsWith f.path ".css" && sIncludes f.contents "@tailwind") = true
  · have hf : tailwindFile f = { f with contents := "@import \"tailwindcss\";" } := by
      simp [tailwindFile, h]
    rw [hf]
    apply tailwindFile_not_trigger
    have : sIncludes "@import \"tailwindcss\";" "@tailwind" = false := by decide
    simp [this]
  · rw [tailwindFile_not_trigger f (Bool.not_eq_true _ ▸ (by simpa using h))]
    exact tailwindFile_not_trigger f (by simpa using h)

/-- C6 (counterexample): `applyTransformations` is not idempotent. On a
`.tsx` file holding the legacy single-quoted `react-dom` import twice, the
first application rewrites only the first occurrence (JavaScript
`String.replace` with a string pattern), so a second application changes the
file again. -/
theorem applyTransformations_claim6_counterexample :
    applyTransformations (applyTransformations
        [{ path := "src/main.tsx"
           contents := "ReactDOM.render(import ReactDOM from 'react-dom';import ReactDOM from 'react-dom';" }]) ≠
      applyTransformations
        [{ path := "src/main.tsx"
           contents := "ReactDOM.render(import ReactDOM from 'react-dom';import ReactDOM from 'react-dom';" }] := by
  decide

/-- C6 (amended): `applyTransformations` (a pure function of the file list)
satisfies: the CSS-directive rewrite is idempotent — applying it twice is the
same as applying it once — and rewrites every triggered `.css` file to the
single content `@import "tailwindcss";`; and every file matching neither
rewrite's trigger is byte-for-byte unchanged, at its position, by the whole
pipeline. The pipeline as a whole is however not idempotent (see the
counterexample): the `ReactDOM` rewrites replace only the first occurrence
per application. -/
theorem applyTransformations_amended :
    (∀ files, tailwindRewrite (tailwindRewrite files) = tailwindRewrite files) ∧
    (∀ (files : List GeneratedFile) (i : Nat) (f : GeneratedFile),
      files.get? i = some f →
      (sEndsWith f.path ".css" && sIncludes f.contents "@tailwind") = true →
      (tailwindRewrite files).get? i =
        some { f with contents := "@import \"tailwindcss\";" }) ∧
    (∀ (files : List GeneratedFile) (i : Nat) (f : GeneratedFile),
      files.get? i = some f →
      (sEndsWith f.path ".css" && sIncludes f.contents "@tailwind") = false →
      ((sEndsWith f.path ".tsx" || sEndsWith f.path ".jsx") &&
        sIncludes f.contents "ReactDOM.render(") = false →
      (applyTransformations files).get? i = some f) := by
  refine ⟨?_, ?_, ?_⟩
  · intro files
    unfold tailwindRewrite
    rw [List.map_map]
    exact List.map_congr_left (fun f _ => tailwindFile_idem f)
  · intro files i f hget htrig
    unfold tailwindRewrite
    rw [List.get?_map, hget]
    simp [tailwindFile, htrig]
  · intro files i f hget h1 h2
    unfold applyTransformations reactDomRender tailwindRewrite
    rw [List.map_map, List.get?_map, hget]
    simp only [Option.map_some', Function.comp_apply]
    rw [tailwindFile_not_trigger f h1, reactDomFile_not_trigger f h2]

/-- C6 (witness): the amended theorem applied to a concrete two-file list —
a triggered `.css` file rewritten to the single import, and a non-matching
`.ts` file left unchanged. -/
theorem applyTransformations_amended_witness :
    (demoFiles.get? 0 = some demoCss ∧
      (sEndsWith demoCss.path ".css" && sIncludes demoCss.contents "@tailwind") = true) ∧
    (tailwindRewrite demoFiles).get? 0 =
      some { demoCss with contents := "@import \"tailwindcss\";" } ∧
    (applyTransformations demoFiles).get? 1 = some demoTs :=
  ⟨⟨by decide, by decide⟩,
    applyTransformations_amended.2.1 demoFiles 0 demoCss (by decide) (by decide),
    applyTransformations_amended.2.2 demoFiles 1 demoTs (by decide) (by decide) (by decide)⟩

/-! ### List helper lemmas for the tracker proofs -/

theorem get?_mem' {α : Type} (l : List α) (n : Nat) (a : α) (h : l.get? n = some a) :
    a ∈ l := by
  induction l generalizing n with
  | nil => simp [List.get?] at h
  | cons b t ih =>
    cases n with
    | zero =>
      simp [List.get?] at h
      simp [h]
    | succ n =>
      exact List.mem_cons_of_mem b (ih n h)

theorem mem_get?' {α : Type} (l : List α) (a : α) (h : a ∈ l) :
    ∃ n, l.get? n = some a := by
  induction l with
  | nil => simp at h
  | cons b t ih =>
    rcases List.mem_cons.mp h with rfl | h'
    · exact ⟨0, rfl⟩
    · rcases ih h' with ⟨n, hn⟩
      exact ⟨n + 1, hn⟩

theorem findIdxA_none {α : Type} (p : α → Bool) (l : List α)
    (h : ∀ a ∈ l, p a = false) : findIdxA p l = none := by
  induction l with
  | nil => rfl
  | cons a t ih =>
    have ha : p a = false := h a (List.mem_cons_self a t)
    simp [findIdxA, ha, ih (fun b hb => h b (List.mem_cons_of_mem a hb))]

theorem findIdxA_some_get? {α : Type} (p : α → Bool) (l : List α) (i : Nat)
    (h : findIdxA p l = some i) : ∃ a, l.get? i = some a ∧ p a = true := by
  induction l generalizing i with
  | nil => simp [findIdxA] at h
  | cons a t ih =>
    by_cases ha : p a = true
    · simp [findIdxA, ha] at h
      subst h
      exact ⟨a, rfl, ha⟩
    · have ha' : p a = false := by simpa using ha
      simp [findIdxA, ha'] at h
      rcases h with ⟨i', hi', rfl⟩
      rcases ih i' hi' with ⟨b, hb, hpb⟩
      exact ⟨b, hb, hpb⟩

theorem findIdxA_some_lt {α : Type} (p : α → Bool) (l : List α) (i : Nat)
    (h : findIdxA p l = some i) : i < l.length := by
  rcases findIdxA_some_get? p l i h with ⟨a, ha, _⟩
  by_contra hge
  rw [List.get?_eq_none.mpr (Nat.le_of_not_lt hge)] at ha
  cases ha

theorem findIdxA_ne {α : Type} (p : α → Bool) (l : List α) (i j : Nat) (a : α)
    (hfind : findIdxA p l = some i) (hj : l.get? j = some a) (hpa : p a = false) :
    i ≠ j := by
  rintro rfl
  rcases findIdxA_some_get? p l i hfind with ⟨b, hb, hpb⟩
  rw [hj] at hb
  cases hb
  rw [hpa] at hpb
  cases hpb

theorem modifyAt_get?_ne {α : Type} (l : List α) (k j : Nat) (f : α → α) (h : k ≠ j) :
    (modifyAt l k f).get? j = l.get? j := by
  induction l generalizing k j with
  | nil => simp [modifyAt]
  | cons a t ih =>
    cases k with
    | zero =>
      cases j with
      | zero => exact absurd rfl h
      | succ j => simp [modifyAt]
    | succ k =>
      cases j with
      | zero => simp [modifyAt]
      | succ j =>
        simp only [modifyAt, List.get?]
        exact ih k j (fun hkj => h (by rw [hkj]))

theorem modifyAt_get?_eq {α : Type} (l : List α) (k : Nat) (f : α → α) :
    (modifyAt l k f).get? k = (l.get? k).map f := by
  induction l generalizing k with
  | nil => simp [modifyAt]
  | cons a t ih =>
    cases k with
    | zero => simp [modifyAt]
    | succ k => simpa [modifyAt] using ih k

theorem modifyAt_map {α β : Type} (l : List α) (k : Nat) (f : α → α) (g : α → β)
    (hfg : ∀ a, g (f a) = g a) : (modifyAt l k f).map g = l.map g := by
  induction l generalizing k with
  | nil => rfl
  | cons a t ih =>
    cases k with
    | zero => simp [modifyAt, hfg]
    | succ k => simp [modifyAt, ih]

theorem nodup_map_get?_inj {α β : Type} (l : List α) (g : α → β)
    (hnd : (l.map g).Nodup) (i j : Nat) (x y : α)
    (hi : l.get? i = some x) (hj : l.get? j = some y) (hxy : g x = g y) : i = j := by
  induction l generalizing i j with
  | nil => simp [List.get?] at hi
  | cons a t ih =>
    rcases List.nodup_cons.mp (show (g a :: t.map g).Nodup from hnd) with ⟨hhd, htl⟩
    cases i with
    | zero =>
      cases j with
      | zero => rfl
      | succ j =>
        simp [List.get?] at hi
        subst hi
        exact absurd (hxy ▸ List.mem_map_of_mem g (get?_mem' t j y hj)) hhd
    | succ i =>
      cases j with
      | zero =>
        simp [List.get?] at hj
        subst hj
        exact absurd (hxy ▸ List.mem_map_of_mem g (get?_mem' t i x hi)) hhd
      | succ j =>
        rw [ih htl i j hi hj]

theorem all_eq_false_of_get? {α : Type} (l : List α) (p : α → Bool) (j : Nat) (x : α)
    (hj : l.get? j = some x) (hx : p x = false) : l.all p = false := by
  by_contra h
  have hall : l.all p = true := by simpa using h
  have := (List.all_eq_true.mp hall) x (get?_mem' l j x hj)
  rw [hx] at this
  cases this

/-! ### Tracker operation shapes -/

theorem startStep_found (st : ProgressState) (stepId : String) (now : Nat) (i : Nat)
    (hfind : findIdxA (fun s => decide (s.id = stepId)) st.steps = some i) :
    startStep (some st) stepId now = ⟨some (startStepState st i now), true⟩ := by
  simp only [startStep, hfind]
  rfl

theorem completeStep_found (st : ProgressState) (stepId : String) (now : Nat) (i : Nat)
    (hfind : findIdxA (fun s => decide (s.id = stepId)) st.steps = some i) :
    completeStep (some st) stepId now = ⟨some (completeStepState st i now), true⟩ := by
  simp only [completeStep, hfind]
  rfl

theorem errorStep_found (st : ProgressState) (stepId msg : String) (now : Nat) (i : Nat)
    (hfind : findIdxA (fun s => decide (s.id = stepId)) st.steps = some i) :
    errorStep (some st) stepId msg now = ⟨some (errorStepState st i msg now), true⟩ := by
  simp only [errorStep, hfind]
  rfl

theorem startStep_notfound (st : ProgressState) (stepId : String) (now : Nat)
    (hfind : findIdxA (fun s => decide (s.id = stepId)) st.steps = none) :
    startStep (some st) stepId now = ⟨some st, false⟩ := by
  simp only [startStep, hfind]

theorem completeStep_notfound (st : ProgressState) (stepId : String) (now : Nat)
    (hfind : findIdxA (fun s => decide (s.id = stepId)) st.steps = none) :
    completeStep (some st) stepId now = ⟨some st, false⟩ := by
  simp only [completeStep, hfind]

theorem errorStep_notfound (st : ProgressState) (stepId msg : String) (now : Nat)
    (hfind : findIdxA (fun s => decide (s.id = stepId)) st.steps = none) :
    errorStep (some st) stepId msg now = ⟨some st, false⟩ := by
  simp only [errorStep, hfind]

theorem findIdxA_isSome {α : Type} (p : α → Bool) (l : List α) (i : Nat) (a : α)
    (hi : l.get? i = some a) (hp : p a = true) : ∃ j, findIdxA p l = some j := by
  induction l generalizing i with
  | nil => simp [List.get?] at hi
  | cons b t ih =>
    by_cases hb : p b = true
    · exact ⟨0, by simp [findIdxA, hb]⟩
    · cases i with
      | zero =>
        simp [List.get?] at hi
        subst hi
        exact absurd hp hb
      | succ i =>
        rcases ih i hi with ⟨j, hj⟩
        refine ⟨j + 1, ?_⟩
        have hb' : p b = false := by simpa using hb
        simp [findIdxA, hb', hj]

/-- On a step list with distinct ids, `findIndex` locates exactly the
position holding the given id. -/
theorem findIdxA_id_of_nodup (l : List ProgressStep)
    (hnd : (l.map (fun s => s.id)).Nodup) (i : Nat) (a : ProgressStep)
    (hi : l.get? i = some a) :
    findIdxA (fun s => decide (s.id = a.id)) l = some i := by
  rcases findIdxA_isSome (fun s => decide (s.id = a.id)) l i a hi (by simp) with ⟨j, hj⟩
  rcases findIdxA_some_get? _ l j hj with ⟨b, hb, hpb⟩
  have hba : b.id = a.id := by simpa using hpb
  have : j = i := nodup_map_get?_inj l (fun s => s.id) hnd j i b a hb hi hba
  rw [← this] at hi ⊢
  exact hj

/-- C9: `startStep`, `completeStep` and `errorStep` are total no-ops when no
state exists for the session (store entry `none`) or when the step id does
not occur in the session's step list: the stored state is returned unchanged
and no update is emitted. -/
theorem progressTracker_missing_noop (stepId msg : String) (now : Nat) :
    (startStep none stepId now = ⟨none, false⟩ ∧
     completeStep none stepId now = ⟨none, false⟩ ∧
     errorStep none stepId msg now = ⟨none, false⟩) ∧
    (∀ st : ProgressState, (∀ s ∈ st.steps, s.id ≠ stepId) →
      startStep (some st) stepId now = ⟨some st, false⟩ ∧
      completeStep (some st) stepId now = ⟨some st, false⟩ ∧
      errorStep (some st) stepId msg now = ⟨some st, false⟩) := by
  refine ⟨⟨rfl, rfl, rfl⟩, ?_⟩
  intro st hid
  have hfind : findIdxA (fun s => decide (s.id = stepId)) st.steps = none :=
    findIdxA_none _ _ (fun s hs => by simp [hid s hs])
  exact ⟨startStep_notfound st stepId now hfind,
    completeStep_notfound st stepId now hfind,
    errorStep_notfound st stepId msg now hfind⟩

/-- C9 (witness): the no-op theorem applied to the fresh-generation step list
and the absent step id `"nope"`. -/
theorem progressTracker_missing_noop_witness :
    (∀ s ∈ (initProgressState "sess" (generateAppSteps false)).steps, s.id ≠ "nope") ∧
    startStep (some (initProgressState "sess" (generateAppSteps false))) "nope" 3 =
      ⟨some (initProgressState "sess" (generateAppSteps false)), false⟩ ∧
    errorStep none "nope" "boom" 3 = ⟨none, false⟩ :=
  ⟨by decide,
    ((progressTracker_missing_noop "nope" "boom" 3).2
      (initProgressState "sess" (generateAppSteps false)) (by decide)).1,
    (progressTracker_missing_noop "nope" "boom" 3).1.2.2⟩

/-- One `startStep`/`completeStep` round on a step present in a
distinct-id step list: the step at its index becomes `completed`, every other
position is untouched, ids are preserved, `hasError` is preserved, and
`isComplete` is set exactly by `completeStep`'s all-completed check. -/
theorem driveOne_spec (st : ProgressState) (a : String) (i : Nat) (s0 : ProgressStep)
    (hnd : (st.steps.map (fun s => s.id)).Nodup)
    (hget : st.steps.get? i = some s0) (hid : s0.id = a) :
    ∃ st', (completeStep (startStep (some st) a 0).store a 0).store = some st' ∧
      st'.steps.map (fun s => s.id) = st.steps.map (fun s => s.id) ∧
      (∀ j, j ≠ i → st'.steps.get? j = st.steps.get? j) ∧
      (∃ s1, st'.steps.get? i = some s1 ∧ s1.status = StepStatus.completed) ∧
      st'.hasError = st.hasError ∧
      st'.isComplete =
        (if st'.steps.all (fun s => decide (s.status = StepStatus.completed)) then true
         else st.isComplete) := by
  have hfind1 : findIdxA (fun s => decide (s.id = a)) st.steps = some i :=
    hid ▸ findIdxA_id_of_nodup st.steps hnd i s0 hget
  set f1 : ProgressStep → ProgressStep := fun s =>
    { s with status := StepStatus.inProgress, startTime := some (0 : Nat) } with hf1
  set st1 : ProgressState := startStepState st i 0 with hst1
  have h1 : (startStep (some st) a 0).store = some st1 := by
    rw [startStep_found st a 0 i hfind1]
  have hsteps1 : st1.steps = modifyAt st.steps i f1 := rfl
  have hids1 : st1.steps.map (fun s => s.id) = st.steps.map (fun s => s.id) := by
    rw [hsteps1]
    exact modifyAt_map st.steps i f1 (fun s => s.id) (fun s => rfl)
  have hget1 : st1.steps.get? i = some (f1 s0) := by
    rw [hsteps1, modifyAt_get?_eq, hget]
    rfl
  have hnd1 : (st1.steps.map (fun s => s.id)).Nodup := by rw [hids1]; exact hnd
  have hfind2 : findIdxA (fun s => decide (s.id = a)) st1.steps = some i := by
    have : (f1 s0).id = a := hid
    exact this ▸ findIdxA_id_of_nodup st1.steps hnd1 i (f1 s0) hget1
  have h2 : (completeStep (some st1) a 0).store = some (completeStepState st1 i 0) := by
    rw [completeStep_found st1 a 0 i hfind2]
  set f2 : ProgressStep → ProgressStep := fun s =>
    { s with status := StepStatus.completed, endTime := some (0 : Nat) } with hf2
  have hsteps2 : (completeStepState st1 i 0).steps = modifyAt st1.steps i f2 := rfl
  refine ⟨completeStepState st1 i 0, ?_, ?_, ?_, ?_, ?_, ?_⟩
  · rw [h1]
    exact h2
  · rw [hsteps2, modifyAt_map st1.steps i f2 (fun s => s.id) (fun s => rfl)]
    exact hids1
  · intro j hj
    rw [hsteps2, modifyAt_get?_ne _ _ _ _ (fun h => hj h.symm), hsteps1]
    exact modifyAt_get?_ne _ _ _ _ (fun h => hj h.symm)
  · refine ⟨f2 (f1 s0), ?_, rfl⟩
    rw [hsteps2, modifyAt_get?_eq, hget1]
    rfl
  · rfl
  · rfl

/-- Driving every listed id through `startStep` then `completeStep` on a
distinct-id step list completes every step; the last `completeStep` then sets
`isComplete`. -/
theorem driveAll_spec (ids : List String) :
    ∀ st : ProgressState,
      (st.steps.map (fun s => s.id)).Nodup →
      (∀ i ∈ ids, i ∈ st.steps.map (fun s => s.id)) →
      (∀ s ∈ st.steps, s.status = StepStatus.completed ∨ s.id ∈ ids) →
      ∃ st', driveAll (some st) ids = some st' ∧
        (∀ s ∈ st'.steps, s.status = StepStatus.completed) ∧
        (ids = [] → st' = st) ∧
        (ids ≠ [] → st'.isComplete = true) := by
  induction ids with
  | nil =>
    intro st _ _ hinv
    refine ⟨st, rfl, ?_, fun _ => rfl, fun h => absurd rfl h⟩
    intro s hs
    rcases hinv s hs with h | h
    · exact h
    · simp at h
  | cons a rest ih =>
    intro st hnd hpres hinv
    have hmem : a ∈ st.steps.map (fun s => s.id) := hpres a (List.mem_cons_self a rest)
    rcases List.mem_map.mp hmem with ⟨s0, hs0, hs0id⟩
    rcases mem_get?' st.steps s0 hs0 with ⟨i, hget⟩
    rcases driveOne_spec st a i s0 hnd hget hs0id with
      ⟨st1, hone, hids1, hother1, ⟨s1, hs1, hs1c⟩, _, hcomp1⟩
    have hdrive : driveAll (some st) (a :: rest) = driveAll (some st1) rest := by
      show List.foldl _ ((completeStep (startStep (some st) a 0).store a 0).store) rest =
        driveAll (some st1) rest
      rw [hone]
      rfl
    have hnd1 : (st1.steps.map (fun s => s.id)).Nodup := by rw [hids1]; exact hnd
    have hpres1 : ∀ i ∈ rest, i ∈ st1.steps.map (fun s => s.id) := by
      intro x hx
      rw [hids1]
      exact hpres x (List.mem_cons_of_mem a hx)
    have hinv1 : ∀ s ∈ st1.steps, s.status = StepStatus.completed ∨ s.id ∈ rest := by
      intro s hs
      rcases mem_get?' st1.steps s hs with ⟨j, hj⟩
      by_cases hji : j = i
      · subst hji
        rw [hj] at hs1
        cases hs1
        exact Or.inl hs1c
      · rw [hother1 j hji] at hj
        rcases hinv s (get?_mem' st.steps j s hj) with h | h
        · exact Or.inl h
        · rcases List.mem_cons.mp h with h' | h'
          · exfalso
            have : j = i := by
              apply nodup_map_get?_inj st.steps (fun s => s.id) hnd j i s s0 hj hget
              rw [h', hs0id]
            exact hji this
          · exact Or.inr h'
    rcases ih st1 hnd1 hpres1 hinv1 with ⟨st', hd, hall, hnil, hne⟩
    refine ⟨st', by rw [hdrive, hd], hall, ?_, ?_⟩
    · intro h; cases h
    · intro _
      rcases Decidable.em (rest = []) with hrest | hrest
      · subst hrest
        have hst' : st' = st1 := hnil rfl
        subst hst'
        rw [hcomp1]
        have : st'.steps.all (fun s => decide (s.status = StepStatus.completed)) = true :=
          List.all_eq_true.mpr (fun s hs => by simp [hall s hs])
        rw [this]
        rfl
      · exact hne hrest

/-- C7: on a tracker freshly created with a distinct-id step list
`d1 :: d2 :: rest` (all steps `pending`, `currentStepIndex = -1`), the call
sequence `startStep d1; completeStep d1; startStep d2` leaves
`currentStepIndex` at the index of `d2` (namely 1) with `d1`'s step
`completed`; and driving every step through `startStep` then `completeStep`
ends with `isComplete = true` (and every step `completed`). -/
theorem progressTracker_monotonic_complete (sid : String) (d1 d2 : StepDef)
    (rest : List StepDef) (t1 t2 t3 : Nat)
    (hnd : ((d1 :: d2 :: rest).map StepDef.id).Nodup) :
    (∃ st,
      (startStep ((completeStep
          ((startStep (some (initProgressState sid (d1 :: d2 :: rest))) d1.id t1).store)
          d1.id t2).store) d2.id t3).store = some st ∧
      st.currentStepIndex = 1 ∧
      ∃ s, st.steps.get? 0 = some s ∧ s.status = StepStatus.completed) ∧
    (∃ st,
      driveAll (some (initProgressState sid (d1 :: d2 :: rest)))
          ((d1 :: d2 :: rest).map StepDef.id) = some st ∧
      st.isComplete = true ∧ ∀ s ∈ st.steps, s.status = StepStatus.completed) := by
  have hids : (initProgressState sid (d1 :: d2 :: rest)).steps.map (fun s => s.id) =
      (d1 :: d2 :: rest).map StepDef.id := by
    unfold initProgressState
    rw [List.map_map]
    rfl
  have hne12 : d1.id ≠ d2.id := by
    have h1 := (List.nodup_cons.mp hnd).1
    intro h
    exact h1 (h ▸ List.mem_cons_self d2.id _)
  constructor
  · set st0 := initProgressState sid (d1 :: d2 :: rest) with hst0
    have hsteps0 : st0.steps =
        { id := d1.id, label := d1.label, description := d1.description
          status := StepStatus.pending } ::
        { id := d2.id, label := d2.label, description := d2.description
          status := StepStatus.pending } ::
        rest.map (fun d =>
          { id := d.id, label := d.label, description := d.description
            status := StepStatus.pending }) := rfl
    have hfind1 : findIdxA (fun s => decide (s.id = d1.id)) st0.steps = some 0 := by
      rw [hsteps0]
      simp [findIdxA]
    set st1 := startStepState st0 0 t1 with hst1
    have h1 : (startStep (some st0) d1.id t1).store = some st1 := by
      rw [startStep_found st0 d1.id t1 0 hfind1]
    have hsteps1 : st1.steps =
        { id := d1.id, label := d1.label, description := d1.description
          status := StepStatus.inProgress, startTime := some t1 } ::
        { id := d2.id, label := d2.label, description := d2.description
          status := StepStatus.pending } ::
        rest.map (fun d =>
          { id := d.id, label := d.label, description := d.description
            status := StepStatus.pending }) := by
      rw [hst1]
      rw [show (startStepState st0 0 t1).steps = modifyAt st0.steps 0 (fun s =>
        { s with status := StepStatus.inProgress, startTime := some t1 }) from rfl]
      rw [hsteps0]
      rfl
    have hfind2 : findIdxA (fun s => decide (s.id = d1.id)) st1.steps = some 0 := by
      rw [hsteps1]
      simp [findIdxA]
    set st2 := completeStepState st1 0 t2 with hst2
    have h2 : (completeStep (some st1) d1.id t2).store = some st2 := by
      rw [completeStep_found st1 d1.id t2 0 hfind2]
    have hsteps2 : st2.steps =
        { id := d1.id, label := d1.label, description := d1.description
          status := StepStatus.completed, startTime := some t1, endTime := some t2 } ::
        { id := d2.id, label := d2.label, description := d2.description
          status := StepStatus.pending } ::
        rest.map (fun d =>
          { id := d.id, label := d.label, description := d.description
            status := StepStatus.pending }) := by
      rw [hst2]
      rw [show (completeStepState st1 0 t2).steps = modifyAt st1.steps 0 (fun s =>
        { s with status := StepStatus.completed, endTime := some t2 }) from rfl]
      rw [hsteps1]
      rfl
    have hfind3 : findIdxA (fun s => decide (s.id = d2.id)) st2.steps = some 1 := by
      rw [hsteps2]
      simp [findIdxA, hne12]
    set st3 := startStepState st2 1 t3 with hst3
    have h3 : (startStep (some st2) d2.id t3).store = some st3 := by
      rw [startStep_found st2 d2.id t3 1 hfind3]
    refine ⟨st3, ?_, rfl, ?_⟩
    · rw [h1, h2]
      exact h3
    · refine ⟨{ id := d1.id, label := d1.label, description := d1.description
                status := StepStatus.completed, startTime := some t1, endTime := some t2 },
              ?_, rfl⟩
      show (modifyAt st2.steps 1 _).get? 0 = _
      rw [modifyAt_get?_ne _ _ _ _ (by decide), hsteps2]
      rfl
  · have hpres : ∀ i ∈ (d1 :: d2 :: rest).map StepDef.id,
        i ∈ (initProgressState sid (d1 :: d2 :: rest)).steps.map (fun s => s.id) := by
      intro i hi
      rw [hids]
      exact hi
    have hinv : ∀ s ∈ (initProgressState sid (d1 :: d2 :: rest)).steps,
        s.status = StepStatus.completed ∨ s.id ∈ (d1 :: d2 :: rest).map StepDef.id := by
      intro s hs
      right
      have : s.id ∈ (initProgressState sid (d1 :: d2 :: rest)).steps.map (fun s => s.id) :=
        List.mem_map_of_mem _ hs
      rw [hids] at this
      exact this
    rcases driveAll_spec ((d1 :: d2 :: rest).map StepDef.id)
        (initProgressState sid (d1 :: d2 :: rest)) (hids ▸ hnd) hpres hinv with
      ⟨st', hd, hall, _, hne⟩
    exact ⟨st', hd, hne (by simp), hall⟩

/-- C7 (witness): the monotonicity/completion theorem applied to a concrete
three-step tracker. -/
theorem progressTracker_monotonic_complete_witness :
    (([⟨"s1", "l1", "d1"⟩, ⟨"s2", "l2", "d2"⟩, ⟨"s3", "l3", "d3"⟩] :
        List StepDef).map StepDef.id).Nodup ∧
    (∃ st,
      (startStep ((completeStep
          ((startStep (some (initProgressState "sess"
              [⟨"s1", "l1", "d1"⟩, ⟨"s2", "l2", "d2"⟩, ⟨"s3", "l3", "d3"⟩])) "s1" 1).store)
          "s1" 2).store) "s2" 3).store = some st ∧
      st.currentStepIndex = 1 ∧
      ∃ s, st.steps.get? 0 = some s ∧ s.status = StepStatus.completed) ∧
    (∃ st,
      driveAll (some (initProgressState "sess"
          [⟨"s1", "l1", "d1"⟩, ⟨"s2", "l2", "d2"⟩, ⟨"s3", "l3", "d3"⟩]))
          ["s1", "s2", "s3"] = some st ∧
      st.isComplete = true ∧ ∀ s ∈ st.steps, s.status = StepStatus.completed) :=
  ⟨by decide,
    (progressTracker_monotonic_complete "sess" ⟨"s1", "l1", "d1"⟩ ⟨"s2", "l2", "d2"⟩
      [⟨"s3", "l3", "d3"⟩] 1 2 3 (by decide)).1,
    (progressTracker_monotonic_complete "sess" ⟨"s1", "l1", "d1"⟩ ⟨"s2", "l2", "d2"⟩
      [⟨"s3", "l3", "d3"⟩] 1 2 3 (by decide)).2⟩

/-! ### Claim C10: error stickiness -/

theorem applyOp_hasError (st : ProgressState) (op : TrackOp) :
    ∃ st', applyOp (some st) op = some st' ∧ (st.hasError = true → st'.hasError = true) := by
  cases op with
  | start stepId now =>
    cases hfind : findIdxA (fun s => decide (s.id = stepId)) st.steps with
    | none =>
      refine ⟨st, ?_, fun h => h⟩
      show (startStep (some st) stepId now).store = some st
      rw [startStep_notfound st stepId now hfind]
    | some i =>
      refine ⟨startStepState st i now, ?_, fun h => h⟩
      show (startStep (some st) stepId now).store = some _
      rw [startStep_found st stepId now i hfind]
  | complete stepId now =>
    cases hfind : findIdxA (fun s => decide (s.id = stepId)) st.steps with
    | none =>
      refine ⟨st, ?_, fun h => h⟩
      show (completeStep (some st) stepId now).store = some st
      rw [completeStep_notfound st stepId now hfind]
    | some i =>
      refine ⟨completeStepState st i now, ?_, fun h => h⟩
      show (completeStep (some st) stepId now).store = some _
      rw [completeStep_found st stepId now i hfind]
  | error stepId msg now =>
    cases hfind : findIdxA (fun s => decide (s.id = stepId)) st.steps with
    | none =>
      refine ⟨st, ?_, fun h => h⟩
      show (errorStep (some st) stepId msg now).store = some st
      rw [errorStep_notfound st stepId msg now hfind]
    | some i =>
      refine ⟨errorStepState st i msg now, ?_, fun _ => rfl⟩
      show (errorStep (some st) stepId msg now).store = some _
      rw [errorStep_found st stepId msg now i hfind]

theorem applyOps_hasError (ops : List TrackOp) :
    ∀ st : ProgressState, st.hasError = true →
      ∃ st', applyOps (some st) ops = some st' ∧ st'.hasError = true := by
  induction ops with
  | nil => intro st h; exact ⟨st, rfl, h⟩
  | cons op rest ih =>
    intro st h
    rcases applyOp_hasError st op with ⟨st1, hop, himp⟩
    rcases ih st1 (himp h) with ⟨st', hd, h'⟩
    refine ⟨st', ?_, h'⟩
    show List.foldl applyOp (applyOp (some st) op) rest = some st'
    rw [hop]
    exact hd

theorem applyOp_error_stuck (st : ProgressState) (op : TrackOp) (j : Nat)
    (s : ProgressStep) (hj : st.steps.get? j = some s)
    (hs : s.status = StepStatus.error) (hic : st.isComplete = false)
    (hop : opDrivesId op s.id = false) :
    ∃ st', applyOp (some st) op = some st' ∧
      (∃ s', st'.steps.get? j = some s' ∧ s'.status = StepStatus.error ∧ s'.id = s.id) ∧
      st'.isComplete = false := by
  cases op with
  | start stepId now =>
    cases hfind : findIdxA (fun s => decide (s.id = stepId)) st.steps with
    | none =>
      refine ⟨st, ?_, ⟨s, hj, hs, rfl⟩, hic⟩
      show (startStep (some st) stepId now).store = some st
      rw [startStep_notfound st stepId now hfind]
    | some i =>
      have hne : ¬ stepId = s.id := by simpa [opDrivesId] using hop
      have hsid : decide (s.id = stepId) = false :=
        decide_eq_false (fun h => hne h.symm)
      have hij : i ≠ j := findIdxA_ne _ st.steps i j s hfind hj hsid
      refine ⟨startStepState st i now, ?_, ?_, ?_⟩
      · show (startStep (some st) stepId now).store = some _
        rw [startStep_found st stepId now i hfind]
      · refine ⟨s, ?_, hs, rfl⟩
        show (modifyAt st.steps i _).get? j = some s
        rw [modifyAt_get?_ne _ _ _ _ hij]
        exact hj
      · exact hic
  | complete stepId now =>
    cases hfind : findIdxA (fun s => decide (s.id = stepId)) st.steps with
    | none =>
      refine ⟨st, ?_, ⟨s, hj, hs, rfl⟩, hic⟩
      show (completeStep (some st) stepId now).store = some st
      rw [completeStep_notfound st stepId now hfind]
    | some i =>
      have hne : ¬ stepId = s.id := by simpa [opDrivesId] using hop
      have hsid : decide (s.id = stepId) = false :=
        decide_eq_false (fun h => hne h.symm)
      have hij : i ≠ j := findIdxA_ne _ st.steps i j s hfind hj hsid
      have hgetj : (modifyAt st.steps i (fun s =>
          { s with status := StepStatus.completed, endTime := some now })).get? j = some s := by
        rw [modifyAt_get?_ne _ _ _ _ hij]
        exact hj
      have hall : (modifyAt st.steps i (fun s =>
          { s with status := StepStatus.completed, endTime := some now })).all
            (fun s => decide (s.status = StepStatus.completed)) = false := by
        apply all_eq_false_of_get? _ _ j s hgetj
        simp [hs]
      refine ⟨completeStepState st i now, ?_, ?_, ?_⟩
      · show (completeStep (some st) stepId now).store = some _
        rw [completeStep_found st stepId now i hfind]
      · exact ⟨s, hgetj, hs, rfl⟩
      · show (if _ then true else st.isComplete) = false
        rw [show (completeStepSteps st i now).all
              (fun s => decide (s.status = StepStatus.completed)) = false from hall]
        simpa using hic
  | error stepId msg now =>
    cases hfind : findIdxA (fun s => decide (s.id = stepId)) st.steps with
    | none =>
      refine ⟨st, ?_, ⟨s, hj, hs, rfl⟩, hic⟩
      show (errorStep (some st) stepId msg now).store = some st
      rw [errorStep_notfound st stepId msg now hfind]
    | some i =>
      by_cases hij : i = j
      · subst hij
        refine ⟨errorStepState st i msg now, ?_, ?_, ?_⟩
        · show (errorStep (some st) stepId msg now).store = some _
          rw [errorStep_found st stepId msg now i hfind]
        · have hmod := modifyAt_get?_eq st.steps i (fun s0 =>
            { s0 with status := StepStatus.error, endTime := some now, error := some msg })
          rw [hj] at hmod
          simp only [Option.map_some'] at hmod
          exact ⟨_, hmod, rfl, rfl⟩
        · exact hic
      · refine ⟨errorStepState st i msg now, ?_, ?_, ?_⟩
        · show (errorStep (some st) stepId msg now).store = some _
          rw [errorStep_found st stepId msg now i hfind]
        · refine ⟨s, ?_, hs, rfl⟩
          show (modifyAt st.steps i _).get? j = some s
          rw [modifyAt_get?_ne _ _ _ _ hij]
          exact hj
        · exact hic

theorem applyOps_error_stuck (ops : List TrackOp) :
    ∀ (st : ProgressState) (j : Nat) (s : ProgressStep),
      st.steps.get? j = some s → s.status = StepStatus.error → st.isComplete = false →
      (∀ op ∈ ops, opDrivesId op s.id = false) →
      ∃ st', applyOps (some st) ops = some st' ∧
        (∃ s', st'.steps.get? j = some s' ∧ s'.status = StepStatus.error) ∧
        st'.isComplete = false := by
  induction ops with
  | nil =>
    intro st j s hj hs hic _
    exact ⟨st, rfl, ⟨s, hj, hs⟩, hic⟩
  | cons op rest ih =>
    intro st j s hj hs hic hops
    rcases applyOp_error_stuck st op j s hj hs hic
        (hops op (List.mem_cons_self op rest)) with
      ⟨st1, hop, ⟨s', hj', hs', hid'⟩, hic'⟩
    rcases ih st1 j s' hj' hs' hic'
        (fun o ho => hid' ▸ hops o (List.mem_cons_of_mem op ho)) with
      ⟨st', hd, hw, hic''⟩
    refine ⟨st', ?_, hw, hic''⟩
    show List.foldl applyOp (applyOp (some st) op) rest = some st'
    rw [hop]
    exact hd

/-- C10: once a step of a session is in `error`, `hasError` stays `true`
under any further `startStep`/`completeStep`/`errorStep` sequence (no
operation resets it); and while no later call starts or completes the errored
step itself, `isComplete` stays `false` — `completeStep` sets it only when
every step is `completed` — even as every other step is driven to
`completed`. Consequently a pipeline run with a session whose fixer step
fails but is recovered (generation and sandbox succeed) returns a success
payload while the session's final state has `hasError = true` and
`isComplete = false`. -/
theorem progressTracker_error_sticky :
    (∀ (st : ProgressState) (ops : List TrackOp), st.hasError = true →
      ∃ st', applyOps (some st) ops = some st' ∧ st'.hasError = true) ∧
    (∀ (st : ProgressState) (ops : List TrackOp) (j : Nat) (s : ProgressStep),
      st.steps.get? j = some s → s.status = StepStatus.error → st.isComplete = false →
      (∀ op ∈ ops, opDrivesId op s.id = false) →
      ∃ st', applyOps (some st) ops = some st' ∧
        (∃ s', st'.steps.get? j = some s' ∧ s'.status = StepStatus.error) ∧
        st'.isComplete = false) ∧
    (isOkResult (generateApp envFixerFails inputFixer).1 = true ∧
      (generateApp envFixerFails inputFixer).2.map ProgressState.hasError = some true ∧
      (generateApp envFixerFails inputFixer).2.map ProgressState.isComplete = some false) :=
  ⟨fun st ops h => applyOps_hasError ops st h,
    fun st ops j s hj hs hic hops => applyOps_error_stuck ops st j s hj hs hic hops,
    by decide⟩

/-- C10 (witness): stickiness applied to a concrete two-step session with an
errored first step, driving the other step to completion. -/
theorem progressTracker_error_sticky_witness :
    (stErrFix.hasError = true ∧ stErrFix.steps.get? 0 =
        some { id := "a", label := "A", description := "", status := StepStatus.error } ∧
      stErrFix.isComplete = false) ∧
    (∃ st', applyOps (some stErrFix)
        [TrackOp.start "b" 0, TrackOp.complete "b" 0] = some st' ∧ st'.hasError = true) ∧
    (∃ st', applyOps (some stErrFix)
        [TrackOp.start "b" 0, TrackOp.complete "b" 0] = some st' ∧
      (∃ s', st'.steps.get? 0 = some s' ∧ s'.status = StepStatus.error) ∧
      st'.isComplete = false) :=
  ⟨⟨by decide, by decide, by decide⟩,
    progressTracker_error_sticky.1 stErrFix
      [TrackOp.start "b" 0, TrackOp.complete "b" 0] (by decide),
    (progressTracker_error_sticky.2.1 stErrFix
      [TrackOp.start "b" 0, TrackOp.complete "b" 0] 0
      { id := "a", label := "A", description := "", status := StepStatus.error }
      (by decide) rfl rfl (by decide)).imp
      (fun st' h => ⟨h.1, h.2.1, h.2.2⟩)⟩

/-! ### Claims C2 and C4: the pipeline boundary -/

theorem modifyAt_length {α : Type} (l : List α) (k : Nat) (f : α → α) :
    (modifyAt l k f).length = l.length := by
  induction l generalizing k with
  | nil => rfl
  | cons a t ih =>
    cases k with
    | zero => rfl
    | succ k => simp [modifyAt, ih]

theorem startStep_wf (tr : Option ProgressState) (ids : List String) (stepId : String)
    (now : Nat) (h : optionWF tr ids) : optionWF (startStep tr stepId now).store ids := by
  intro st hst
  cases tr with
  | none => cases hst
  | some st0 =>
    cases hfind : findIdxA (fun s => decide (s.id = stepId)) st0.steps with
    | none =>
      rw [startStep_notfound st0 stepId now hfind] at hst
      obtain rfl := Option.some.inj hst
      exact h st0 rfl
    | some i =>
      rw [startStep_found st0 stepId now i hfind] at hst
      obtain rfl := Option.some.inj hst
      rcases h st0 rfl with ⟨hids, _⟩
      constructor
      · have hm := modifyAt_map st0.steps i (fun s =>
          { s with status := StepStatus.inProgress, startTime := some now })
          (fun s => s.id) (fun s => rfl)
        show (modifyAt st0.steps i _).map (fun s => s.id) = ids
        rw [hm]
        exact hids
      · right
        refine ⟨i, rfl, ?_⟩
        show i < (modifyAt st0.steps i _).length
        rw [modifyAt_length]
        exact findIdxA_some_lt _ _ _ hfind

theorem completeStep_wf (tr : Option ProgressState) (ids : List String) (stepId : String)
    (now : Nat) (h : optionWF tr ids) : optionWF (completeStep tr stepId now).store ids := by
  intro st hst
  cases tr with
  | none => cases hst
  | some st0 =>
    cases hfind : findIdxA (fun s => decide (s.id = stepId)) st0.steps with
    | none =>
      rw [completeStep_notfound st0 stepId now hfind] at hst
      obtain rfl := Option.some.inj hst
      exact h st0 rfl
    | some i =>
      rw [completeStep_found st0 stepId now i hfind] at hst
      obtain rfl := Option.some.inj hst
      rcases h st0 rfl with ⟨hids, hidx⟩
      constructor
      · have hm := modifyAt_map st0.steps i (fun s =>
          { s with status := StepStatus.completed, endTime := some now })
          (fun s => s.id) (fun s => rfl)
        show (modifyAt st0.steps i _).map (fun s => s.id) = ids
        rw [hm]
        exact hids
      · rcases hidx with hneg | ⟨i0, hi0, hlt⟩
        · exact Or.inl hneg
        · right
          refine ⟨i0, hi0, ?_⟩
          show i0 < (modifyAt st0.steps i _).length
          rw [modifyAt_length]
          exact hlt

theorem errorStep_wf (tr : Option ProgressState) (ids : List String) (stepId msg : String)
    (now : Nat) (h : optionWF tr ids) : optionWF (errorStep tr stepId msg now).store ids := by
  intro st hst
  cases tr with
  | none => cases hst
  | some st0 =>
    cases hfind : findIdxA (fun s => decide (s.id = stepId)) st0.steps with
    | none =>
      rw [errorStep_notfound st0 stepId msg now hfind] at hst
      obtain rfl := Option.some.inj hst
      exact h st0 rfl
    | some i =>
      rw [errorStep_found st0 stepId msg now i hfind] at hst
      obtain rfl := Option.some.inj hst
      rcases h st0 rfl with ⟨hids, hidx⟩
      constructor
      · have hm := modifyAt_map st0.steps i (fun s =>
          { s with status := StepStatus.error, endTime := some now, error := some msg })
          (fun s => s.id) (fun s => rfl)
        show (modifyAt st0.steps i _).map (fun s => s.id) = ids
        rw [hm]
        exact hids
      · rcases hidx with hneg | ⟨i0, hi0, hlt⟩
        · exact Or.inl hneg
        · right
          refine ⟨i0, hi0, ?_⟩
          show i0 < (modifyAt st0.steps i _).length
          rw [modifyAt_length]
          exact hlt

theorem applyOp_wf (tr : Option ProgressState) (ids : List String) (op : TrackOp)
    (h : optionWF tr ids) : optionWF (applyOp tr op) ids := by
  cases op with
  | start stepId now => exact startStep_wf tr ids stepId now h
  | complete stepId now => exact completeStep_wf tr ids stepId now h
  | error stepId msg now => exact errorStep_wf tr ids stepId msg now h

theorem applyOps_wf (ops : List TrackOp) :
    ∀ tr : Option ProgressState, ∀ ids : List String,
      optionWF tr ids → optionWF (applyOps tr ops) ids := by
  induction ops with
  | nil => intro tr ids h; exact h
  | cons op rest ih =>
    intro tr ids h
    exact ih (applyOp tr op) ids (applyOp_wf tr ids op h)

theorem catchTracker_marks (msg : String) (tr : Option ProgressState) (ids : List String)
    (hnd : ids.Nodup) (hwf : optionWF tr ids) :
    ∀ st, catchTracker msg tr = some st →
      ∀ i : Nat, st.currentStepIndex = Int.ofNat i →
        ∃ s, st.steps.get? i = some s ∧ s.status = StepStatus.error ∧
          s.error = some msg := by
  intro st hst i hi
  cases tr with
  | none => cases hst
  | some st0 =>
    rcases hwf st0 rfl with ⟨hidseq, hidx⟩
    rcases hidx with hneg | ⟨i0, hi0, hlt⟩
    · have hcond : ¬ (0 : Int) ≤ st0.currentStepIndex := by
        rw [hneg]
        decide
      have heq : catchTracker msg (some st0) = some st0 := by
        simp only [catchTracker]
        rw [if_neg hcond]
      rw [heq] at hst
      obtain rfl := Option.some.inj hst
      exfalso
      rw [hi] at hneg
      have : (0 : Int) ≤ Int.ofNat i := Int.ofNat_nonneg i
      rw [hneg] at this
      exact absurd this (by decide)
    · obtain ⟨s0, hs0⟩ : ∃ s0, st0.steps.get? i0 = some s0 :=
        ⟨_, List.get?_eq_get hlt⟩
      have hnd0 : (st0.steps.map (fun s => s.id)).Nodup := by
        rw [hidseq]; exact hnd
      have hfind : findIdxA (fun s => decide (s.id = s0.id)) st0.steps = some i0 :=
        findIdxA_id_of_nodup st0.steps hnd0 i0 s0 hs0
      have hcond : (0 : Int) ≤ st0.currentStepIndex := by
        rw [hi0]
        exact Int.ofNat_nonneg i0
      have htoNat : (st0.currentStepIndex).toNat = i0 := by
        rw [hi0]
        rfl
      have heq : catchTracker msg (some st0) = some (errorStepState st0 i0 msg 0) := by
        simp only [catchTracker]
        rw [if_pos hcond, htoNat, hs0]
        show (errorStep (some st0) s0.id msg 0).store = _
        rw [errorStep_found st0 s0.id msg 0 i0 hfind]
      rw [heq] at hst
      obtain rfl := Option.some.inj hst
      have hidx' : (errorStepState st0 i0 msg 0).currentStepIndex = Int.ofNat i0 := hi0
      have hii : i = i0 := by
        rw [hidx'] at hi
        exact Int.ofNat.inj hi.symm
      subst hii
      refine ⟨{ s0 with
                status := StepStatus.error
                endTime := some 0
                error := some msg }, ?_, rfl, rfl⟩
      show (modifyAt st0.steps i _).get? i = _
      rw [modifyAt_get?_eq, hs0]
      rfl

theorem generateAppSteps_nodup (b : Bool) :
    ((generateAppSteps b).map StepDef.id).Nodup := by
  cases b <;> decide

theorem initProgressState_ids (sid : String) (defs : List StepDef) :
    (initProgressState sid defs).steps.map (fun s => s.id) = defs.map StepDef.id := by
  unfold initProgressState
  rw [List.map_map]
  rfl

theorem tracker0_wf (input : GenerateAppInput) :
    optionWF (generateAppTracker0 input) ((generateAppSteps input.useFixer).map StepDef.id) := by
  intro st hst
  unfold generateAppTracker0 at hst
  cases hsid : input.sessionId with
  | none => rw [hsid] at hst; cases hst
  | some sid =>
    rw [hsid] at hst
    obtain rfl := Option.some.inj hst
    constructor
    · exact initProgressState_ids sid (generateAppSteps input.useFixer)
    · left
      rfl

theorem fixerPhase_wf (env : PipelineEnv) (b : Bool) (files : List GeneratedFile)
    (t2 : Option ProgressState) (ids : List String) (h : optionWF t2 ids) :
    optionWF (generateAppFixerPhase env b files t2).2 ids := by
  unfold generateAppFixerPhase
  cases b with
  | false => exact h
  | true =>
    cases env.fixerResult with
    | error e =>
      exact errorStep_wf _ ids _ _ 0 (startStep_wf t2 ids _ 0 h)
    | ok o =>
      cases o with
      | none => exact completeStep_wf _ ids _ 0 (startStep_wf t2 ids _ 0 h)
      | some fixed => exact completeStep_wf _ ids _ 0 (startStep_wf t2 ids _ 0 h)

theorem sandboxPhase_no_raise (env : PipelineEnv) (input : GenerateAppInput)
    (filesToSandbox : List GeneratedFile) (fx : List GeneratedFile × Option ProgressState)
    (ids : List String) (hnd : ids.Nodup) (hwf : optionWF fx.2 ids) :
    (∃ p, (generateAppSandboxPhase env input filesToSandbox fx).1 =
      GenerateAppResult.ok p) ∨
    (∃ msg, (generateAppSandboxPhase env input filesToSandbox fx).1 =
        GenerateAppResult.err { error := "Failed to generate app", message := msg
                                sessionId := input.sessionId } ∧
      ∀ st, (generateAppSandboxPhase env input filesToSandbox fx).2 = some st →
        ∀ i : Nat, st.currentStepIndex = Int.ofNat i →
          ∃ s, st.steps.get? i = some s ∧ s.status = StepStatus.error ∧
            s.error = some msg) := by
  have hwf5 : optionWF (applyOps (startStep fx.2 "creating-sandbox" 0).store
      env.sandboxOps) ids :=
    applyOps_wf env.sandboxOps _ ids (startStep_wf fx.2 ids "creating-sandbox" 0 hwf)
  cases hsb : env.sandboxRun fx.1 with
  | error msg =>
    right
    refine ⟨msg, ?_, ?_⟩
    · show (generateAppSandboxPhase env input filesToSandbox fx).1 = _
      simp only [generateAppSandboxPhase, hsb]
      rfl
    · have heq : (generateAppSandboxPhase env input filesToSandbox fx).2 =
          catchTracker msg (applyOps (startStep fx.2 "creating-sandbox" 0).store
            env.sandboxOps) := by
        simp only [generateAppSandboxPhase, hsb]
        rfl
      rw [heq]
      exact catchTracker_marks msg _ ids hnd hwf5
  | ok sb =>
    left
    refine ⟨sandboxOkPayload input filesToSandbox sb, ?_⟩
    simp only [generateAppSandboxPhase, hsb]

/-- C2: `generateApp` never raises: for every environment (each collaborator
call either returning or throwing) and every input, the result is either a
success payload or the structured
`{ error := "Failed to generate app", message, sessionId }` object; in the
error case, whenever the session's final state marks a current step
(`currentStepIndex ≥ 0`), that step's status is `error` with the exception's
message. -/
theorem generateApp_no_raise (env : PipelineEnv) (input : GenerateAppInput) :
    (∃ p, (generateApp env input).1 = GenerateAppResult.ok p) ∨
    (∃ msg, (generateApp env input).1 =
        GenerateAppResult.err { error := "Failed to generate app", message := msg
                                sessionId := input.sessionId } ∧
      ∀ st, (generateApp env input).2 = some st →
        ∀ i : Nat, st.currentStepIndex = Int.ofNat i →
          ∃ s, st.steps.get? i = some s ∧ s.status = StepStatus.error ∧
            s.error = some msg) := by
  have hnd : ((generateAppSteps input.useFixer).map StepDef.id).Nodup :=
    generateAppSteps_nodup input.useFixer
  have hwf1 : optionWF (startStep (generateAppTracker0 input) "generating-code" 0).store
      ((generateAppSteps input.useFixer).map StepDef.id) :=
    startStep_wf _ _ _ _ (tracker0_wf input)
  cases hgen : env.genResult with
  | error msg =>
    right
    have heq1 : (generateApp env input).1 =
        GenerateAppResult.err { error := "Failed to generate app", message := msg
                                sessionId := input.sessionId } := by
      simp only [generateApp, hgen]
      rfl
    have heq2 : (generateApp env input).2 = catchTracker msg
        (startStep (generateAppTracker0 input) "generating-code" 0).store := by
      simp only [generateApp, hgen]
      rfl
    refine ⟨msg, heq1, ?_⟩
    rw [heq2]
    exact catchTracker_marks msg _ _ hnd hwf1
  | ok files =>
    have hwfFx : optionWF (generateAppFixerPhase env input.useFixer files
        ((completeStep (startStep (generateAppTracker0 input) "generating-code" 0).store
          "generating-code" 0).store)).2
        ((generateAppSteps input.useFixer).map StepDef.id) :=
      fixerPhase_wf env input.useFixer files _ _ (completeStep_wf _ _ _ _ hwf1)
    have heq : generateApp env input = generateAppSandboxPhase env input files
        (generateAppFixerPhase env input.useFixer files
          ((completeStep (startStep (generateAppTracker0 input) "generating-code" 0).store
            "generating-code" 0).store)) := by
      simp only [generateApp, hgen]
    rw [heq]
    exact sandboxPhase_no_raise env input files _ _ hnd hwfFx

/-- C2 (witness): the boundary theorem applied to a concrete environment
whose generation step throws. -/
theorem generateApp_no_raise_witness :
    (∃ p, (generateApp envGenFails inputFixer).1 = GenerateAppResult.ok p) ∨
    (∃ msg, (generateApp envGenFails inputFixer).1 =
        GenerateAppResult.err { error := "Failed to generate app", message := msg
                                sessionId := inputFixer.sessionId } ∧
      ∀ st, (generateApp envGenFails inputFixer).2 = some st →
        ∀ i : Nat, st.currentStepIndex = Int.ofNat i →
          ∃ s, st.steps.get? i = some s ∧ s.status = StepStatus.error ∧
            s.error = some msg) :=
  generateApp_no_raise envGenFails inputFixer

/-- C4: with the repair flag set, any fixer failure — a thrown error (which a
timeout is) or a response without the expected suggested-files structure —
leaves the working file set equal to the pre-repair files: the sandbox step
is invoked on the generated files themselves and, when it succeeds, the
pipeline returns a success payload (never an error result on account of the
fixer). -/
theorem generateApp_fixer_bestEffort (env : PipelineEnv) (input : GenerateAppInput)
    (gfiles : List GeneratedFile) (sb : SandboxRes)
    (hUF : input.useFixer = true)
    (hgen : env.genResult = Except.ok gfiles)
    (hfx : (∃ e, env.fixerResult = Except.error e) ∨ env.fixerResult = Except.ok none)
    (hsb : env.sandboxRun gfiles = Except.ok sb) :
    ∃ p, (generateApp env input).1 = GenerateAppResult.ok p ∧
      p.originalFiles = gfiles ∧ p.repairedFiles = sb.allFiles ∧
      p.previewUrl = sb.url ∧ p.sandboxId = sb.sbxId ∧ p.hasErrors = sb.hasErrors := by
  have hfiles : (generateAppFixerPhase env input.useFixer gfiles
      ((completeStep (startStep (generateAppTracker0 input) "generating-code" 0).store
        "generating-code" 0).store)).1 = gfiles := by
    unfold generateAppFixerPhase
    rw [hUF]
    rcases hfx with ⟨e, he⟩ | he <;> simp [he]
  have heq : generateApp env input = generateAppSandboxPhase env input gfiles
      (generateAppFixerPhase env input.useFixer gfiles
        ((completeStep (startStep (generateAppTracker0 input) "generating-code" 0).store
          "generating-code" 0).store)) := by
    simp only [generateApp, hgen]
  rw [heq]
  refine ⟨sandboxOkPayload input gfiles sb, ?_, rfl, rfl, rfl, rfl, rfl⟩
  show (generateAppSandboxPhase env input gfiles _).1 = _
  simp only [generateAppSandboxPhase, hfiles, hsb]

/-- C4 (witness): the best-effort theorem applied to the concrete
fixer-throws environment. -/
theorem generateApp_fixer_bestEffort_witness :
    (inputFixer.useFixer = true ∧
      envFixerFails.genResult =
        Except.ok [{ path := "src/App.tsx", contents := "export default 1" }] ∧
      envFixerFails.fixerResult = Except.error "fixer boom") ∧
    ∃ p, (generateApp envFixerFails inputFixer).1 = GenerateAppResult.ok p ∧
      p.originalFiles = [{ path := "src/App.tsx", contents := "export default 1" }] ∧
      p.repairedFiles = [{ path := "src/App.tsx", contents := "export default 1" }] ∧
      p.previewUrl = "https://preview" ∧ p.sandboxId = "sbx1" ∧ p.hasErrors = false :=
  ⟨⟨rfl, rfl, rfl⟩,
    generateApp_fixer_bestEffort envFixerFails inputFixer
      [{ path := "src/App.tsx", contents := "export default 1" }]
      { sbxId := "sbx1", template := "vite-support", url := "https://preview"
        allFiles := [{ path := "src/App.tsx", contents := "export default 1" }]
        buildErrors := none, hasErrors := false }
      rfl rfl (Or.inl ⟨"fixer boom", rfl⟩) rfl⟩

/-- C3 (witness): the merge contract applied to concrete file sets
`[a↦1, b↦2]` and `[b↦3, c↦4]`. -/
theorem mergeSpec_of_nodup_witness :
    ((paths mergeE).Nodup ∧ (paths mergeU).Nodup) ∧ mergeSpecHolds mergeE mergeU :=
  ⟨⟨by decide, by decide⟩, mergeSpec_of_nodup mergeE mergeU (by decide) (by decide)⟩

/-! ### Claim C5: update-in-place failure handling -/

/-- C5 (counterexample): in `updateSandboxFiles`, a failing dependency
install is NOT recorded as a `BuildError`: with the install command throwing
and every health check throwing, the call still returns `buildErrors = none`
(it is always `undefined` in update mode); the failed health poll is
reflected only in `hasErrors`. -/
theorem updateSandboxFiles_claim5_counterexample :
    uEnvFail.installResult = Except.error "npm boom" ∧
    (∃ n, pkgFiles.get? n = some { path := "package.json", contents := "x" }) ∧
    updateSandboxFiles uEnvFail pkgFiles none =
      Except.ok ({ sbxId := "sb"
                   template := "vite-support"
                   url := "https://h"
                   allFiles := []
                   buildErrors := none
                   hasErrors := true }, none) := by
  refine ⟨rfl, ⟨0, rfl⟩, ?_⟩
  decide

/-- C5 (amended): in update-in-place mode, an install failure and a failing
health poll are absorbed, not raised — with connect, write and read-back
succeeding, the call returns a result (whatever the install command and the
health checks did) whose `buildErrors` is always `none` and whose
`hasErrors` is exactly the negation of the poll loop's success; a connect
failure propagates to the caller. -/
theorem updateSandboxFiles_failures_absorbed (env : UpdateEnv)
    (files : List GeneratedFile) (tr : Option ProgressState) :
    (∀ fs, env.connectResult = Except.ok () → env.writeResult = Except.ok () →
      env.fetchResult = Except.ok fs →
      ∃ r tr', updateSandboxFiles env files tr = Except.ok (r, tr') ∧
        r.buildErrors = none ∧ r.hasErrors = !(pollLoop env.healthResult 1 10) ∧
        r.allFiles = fs) ∧
    (∀ e, env.connectResult = Except.error e →
      updateSandboxFiles env files tr = Except.error e) := by
  constructor
  · intro fs hc hw hf
    simp only [updateSandboxFiles, hc, hw, hf]
    exact ⟨_, _, rfl, rfl, rfl, rfl⟩
  · intro e he
    simp only [updateSandboxFiles, he]

/-- C5 (witness): the absorption theorem applied to the all-succeeding
concrete environment. -/
theorem updateSandboxFiles_failures_absorbed_witness :
    (uEnvOk.connectResult = Except.ok () ∧ uEnvOk.writeResult = Except.ok () ∧
      uEnvOk.fetchResult = Except.ok pkgFiles) ∧
    ∃ r tr', updateSandboxFiles uEnvOk pkgFiles none = Except.ok (r, tr') ∧
      r.buildErrors = none ∧ r.hasErrors = !(pollLoop uEnvOk.healthResult 1 10) ∧
      r.allFiles = pkgFiles :=
  ⟨⟨rfl, rfl, rfl⟩,
    (updateSandboxFiles_failures_absorbed uEnvOk pkgFiles none).1 pkgFiles rfl rfl rfl⟩

end UIB
